import Mathlib

/-!
# PulseGraph — verification of the refresh pipeline core

A shallow embedding, in Lean 4, of the PulseGraph repository's core:
the freshness policy (`src/agent/freshness.py`), the SERP discovery cap
(`src/ingest/brightdata.py`), the identity scheme and extraction
contracts (`src/extract/contracts.py`, `src/extract/schemas.py`,
`src/extract/llm_claims.py`), the idempotent graph-merge layer
(`src/graph/upsert.py`) and the refresh orchestrator
(`src/ingest/refresh.py`).

Modelling conventions:
* Python machine floats that carry scores/confidences are modelled as `Rat`.
* `datetime` instants are modelled as `Int` seconds where arithmetic on
  them matters (freshness), and as opaque `String` tokens where they are
  only stored and compared for identity (graph timestamps).
* Network and database I/O is replaced by explicit inputs: the parsed
  SERP payload, a fetch oracle and an LLM-output oracle are parameters,
  and the Neo4j database is an explicit `GraphStore` value; Cypher
  `MERGE`/`SET`/`MATCH` semantics are rendered as operations on
  association lists keyed by node id.
* Python exceptions become `Except String`.
-/

set_option maxRecDepth 8000
set_option maxHeartbeats 1000000

namespace PulseGraph

/-! ## SHA-256 (`hashlib.sha256`), over byte lists

The repository derives every node identity from
`hashlib.sha256(s.encode("utf-8")).hexdigest()[:24]`.  Machine words are
`Nat` reduced mod `2^32`. -/

def M32 : Nat := 4294967296

def rotr (n x : Nat) : Nat := ((x >>> n) ||| (x <<< (32 - n))) % M32

def shaK : List Nat :=
  [1116352408, 1899447441, 3049323471, 3921009573, 961987163, 1508970993,
   2453635748, 2870763221, 3624381080, 310598401, 607225278, 1426881987,
   1925078388, 2162078206, 2614888103, 3248222580, 3835390401, 4022224774,
   264347078, 604807628, 770255983, 1249150122, 1555081692, 1996064986,
   2554220882, 2821834349, 2952996808, 3210313671, 3336571891, 3584528711,
   113926993, 338241895, 666307205, 773529912, 1294757372, 1396182291,
   1695183700, 1986661051, 2177026350, 2456956037, 2730485921, 2820302411,
   3259730800, 3345764771, 3516065817, 3600352804, 4094571909, 275423344,
   430227734, 506948616, 659060556, 883997877, 958139571, 1322822218,
   1537002063, 1747873779, 1955562222, 2024104815, 2227730452, 2361852424,
   2428436474, 2756734187, 3204031479, 3329325298]

def shaH0 : List Nat :=
  [1779033703, 3144134277, 1013904242, 2773480762,
   1359893119, 2600822924, 528734635, 1541459225]

def beBytes : Nat → Nat → List Nat
  | 0, _ => []
  | n + 1, x => beBytes n (x / 256) ++ [x % 256]

def padBytes (msg : List Nat) : List Nat :=
  msg ++ [0x80] ++ List.replicate ((119 - (msg.length % 64)) % 64) 0 ++ beBytes 8 (8 * msg.length)

def toWords : List Nat → List Nat
  | b0 :: b1 :: b2 :: b3 :: rest => (((b0 * 256 + b1) * 256 + b2) * 256 + b3) :: toWords rest
  | _ => []

/-- Message-schedule extension; `wrev` holds the words produced so far, most recent first. -/
def extendSchedule : Nat → List Nat → List Nat
  | 0, wrev => wrev
  | n + 1, wrev =>
    let g := fun i => wrev.getD i 0
    let s0 := (rotr 7 (g 14)) ^^^ (rotr 18 (g 14)) ^^^ ((g 14) >>> 3)
    let s1 := (rotr 17 (g 1)) ^^^ (rotr 19 (g 1)) ^^^ ((g 1) >>> 10)
    extendSchedule n ((((g 15) + s0 + (g 6) + s1) % M32) :: wrev)

def shaRounds : List Nat → List Nat → List Nat → List Nat
  | k :: ks, w :: ws, [a, b, c, d, e, f, g, h] =>
    let s1 := (rotr 6 e) ^^^ (rotr 11 e) ^^^ (rotr 25 e)
    let ch := (e &&& f) ^^^ ((e ^^^ 0xffffffff) &&& g)
    let t1 := (h + s1 + ch + k + w) % M32
    let s0 := (rotr 2 a) ^^^ (rotr 13 a) ^^^ (rotr 22 a)
    let mj := (a &&& b) ^^^ (a &&& c) ^^^ (b &&& c)
    let t2 := (s0 + mj) % M32
    shaRounds ks ws [(t1 + t2) % M32, a, b, c, (d + t1) % M32, e, f, g]
  | _, _, st => st

def compressBlock (H : List Nat) (block : List Nat) : List Nat :=
  let ws := (extendSchedule 48 block.reverse).reverse
  List.zipWith (fun x y => (x + y) % M32) H (shaRounds shaK ws H)

def shaGo (fuel : Nat) (H : List Nat) (ws : List Nat) : List Nat :=
  match fuel, ws with
  | _, [] => H
  | 0, _ => H
  | fuel + 1, ws => shaGo fuel (compressBlock H (ws.take 16)) (ws.drop 16)

def sha256Bytes (msg : List Nat) : List Nat :=
  let ws := toWords (padBytes msg)
  (shaGo ws.length shaH0 ws).foldr (fun w acc => beBytes 4 w ++ acc) []

def hexDigit (n : Nat) : Char :=
  if n < 10 then Char.ofNat (48 + n) else Char.ofNat (87 + n)

def bytesToHex (l : List Nat) : String :=
  String.mk (l.foldr (fun b acc => hexDigit (b / 16) :: hexDigit (b % 16) :: acc) [])

/-- UTF-8 encoding of one character, as Python's `str.encode("utf-8")` does per code point. -/
def utf8Bytes (c : Char) : List Nat :=
  let n := c.toNat
  if n < 0x80 then [n]
  else if n < 0x800 then [0xc0 ||| (n >>> 6), 0x80 ||| (n &&& 0x3f)]
  else if n < 0x10000 then
    [0xe0 ||| (n >>> 12), 0x80 ||| ((n >>> 6) &&& 0x3f), 0x80 ||| (n &&& 0x3f)]
  else
    [0xf0 ||| (n >>> 18), 0x80 ||| ((n >>> 12) &&& 0x3f), 0x80 ||| ((n >>> 6) &&& 0x3f),
     0x80 ||| (n &&& 0x3f)]

def strBytes (s : String) : List Nat :=
  s.data.foldr (fun c acc => utf8Bytes c ++ acc) []

/-- `hashlib.sha256(s.encode("utf-8")).hexdigest()[:24]`. -/
def sha256Hex24 (s : String) : String :=
  bytesToHex ((sha256Bytes (strBytes s)).take 12)

/-! ## Identity scheme (`src/extract/contracts.py`, `src/graph/upsert.py`) -/

/-- Python `str.strip()`: drop whitespace from both ends.  (Implemented over
the character list so the kernel can evaluate it; Lean's own `String.trim`
is defined through `Substring` machinery that does not reduce.) -/
def pyStrip (s : String) : String :=
  String.mk ((s.data.dropWhile Char.isWhitespace).reverse.dropWhile Char.isWhitespace).reverse

/-- Python `str.lower()` on one character, for the ASCII range that the
repository's identifiers use. -/
def pyCharLower (c : Char) : Char :=
  if 65 ≤ c.toNat ∧ c.toNat ≤ 90 then Char.ofNat (c.toNat + 32) else c

/-- Python `str.lower()`. -/
def pyLower (s : String) : String := String.mk (s.data.map pyCharLower)

/-- Python `str.startswith(p)`. -/
def pyStartsWith (s p : String) : Bool := p.data.isPrefixOf s.data

/-- `_stable_id_from_url` (contracts.py): sha-24 of the stripped URL. -/
def stable_id_from_url (url : String) : String := sha256Hex24 (pyStrip url)

/-- `_stable_id_from_text` (contracts.py): parts stripped and lowercased, joined with
`" | "`, the join stripped, then sha-24.  (The Python generator's `if p is not None`
filter never fires: every caller passes strings.) -/
def stable_id_from_text (parts : List String) : String :=
  sha256Hex24 (pyStrip (String.intercalate " | " (parts.map (fun p => pyLower (pyStrip p)))))

/-- `_id` (upsert.py): parts stripped, joined with `"|"`, then sha-24. -/
def upsertId (parts : List String) : String :=
  sha256Hex24 (String.intercalate "|" (parts.map pyStrip))

/-! ## Extraction contracts (`src/extract/contracts.py`) -/

/-- `SourceDoc` — the normalized document produced by ingestion.  `fetched_at` and
`published_at` are opaque ISO-timestamp tokens here; `metadata` keeps the SERP
debug fields carried by refresh (never read downstream). -/
structure SourceDoc where
  url : String
  title : String
  raw_text : String
  source_type : String
  fetched_at : String
  published_at : Option String := none
  query : Option String := none
  site_name : Option String := none
  author : Option String := none
  language : Option String := none
  raw_html : Option String := none
  metadata : List (String × Option String) := []
deriving Repr, DecidableEq

def SourceDoc.source_id (d : SourceDoc) : String := stable_id_from_url d.url

/-- `Claim` — a structured claim extracted from a source document.  The Python
dataclass annotates `claim_type`/`direction` with `Literal` types, which are not
enforced at runtime, so both are plain strings here. -/
structure Claim where
  company_name : String
  period : String
  text : String
  claim_type : String := "other"
  timeframe : Option String := none
  direction : String := "unknown"
  value : Option Rat := none
  unit : Option String := none
  confidence : Rat := mkRat 1 2
  evidence : String := ""
  source_url : Option String := none
  source_title : Option String := none
deriving Repr, DecidableEq

/-- `Claim.claim_id`: company + period + type + timeframe-or-`""` + text. -/
def Claim.claim_id (c : Claim) : String :=
  stable_id_from_text [c.company_name, c.period, c.claim_type, c.timeframe.getD "", c.text]

/-! ## Extraction output schema (`src/extract/schemas.py`)

`ClaimOut` is a pydantic model: parsing applies defaults for absent fields,
checks the `Literal` enumerations, and checks `confidence` against
`Field(ge=0.0, le=1.0)`.  A violation is a validation *error* (the whole
`ClaimsPayload` parse fails), exactly as pydantic behaves. -/

def ClaimTypeValues : List String :=
  ["revenue", "eps", "guidance", "margin", "demand", "risk", "product", "other"]

def DirectionValues : List String := ["up", "down", "flat", "mixed", "unknown"]

/-- The unvalidated shape of one claim as produced by the LLM, before pydantic
validation; `none` models an absent field. -/
structure RawClaim where
  text : Option String := none
  claim_type : Option String := none
  direction : Option String := none
  timeframe : Option String := none
  value : Option Rat := none
  unit : Option String := none
  confidence : Option Rat := none
  evidence : Option String := none
deriving Repr, DecidableEq

/-- A validated `ClaimOut`. -/
structure ClaimOut where
  text : String
  claim_type : String
  direction : String
  timeframe : Option String
  value : Option Rat
  unit : Option String
  confidence : Rat
  evidence : String
deriving Repr, DecidableEq

/-- Pydantic validation of one `ClaimOut` item. -/
def validateClaimOut (r : RawClaim) : Except String ClaimOut :=
  match r.text with
  | none => .error "text: field required"
  | some t =>
    if r.claim_type.getD "other" ∈ ClaimTypeValues then
      if r.direction.getD "unknown" ∈ DirectionValues then
        if 0 ≤ r.confidence.getD (mkRat 1 2) ∧ r.confidence.getD (mkRat 1 2) ≤ 1 then
          .ok { text := t, claim_type := r.claim_type.getD "other",
                direction := r.direction.getD "unknown", timeframe := r.timeframe,
                value := r.value, unit := r.unit,
                confidence := r.confidence.getD (mkRat 1 2),
                evidence := r.evidence.getD "" }
        else .error "confidence: value out of range [0, 1]"
      else .error "direction: value is not a permitted literal"
    else .error "claim_type: value is not a permitted literal"

/-- Pydantic validation of `ClaimsPayload`: every item must validate. -/
def validateClaimsPayload : List RawClaim → Except String (List ClaimOut)
  | [] => .ok []
  | r :: rs => do
    let c ← validateClaimOut r
    let cs ← validateClaimsPayload rs
    pure (c :: cs)

/-! ## LLM claim extraction (`src/extract/llm_claims.py`)

`extract_claims_from_source_openai` sends the (truncated) source text to the
LLM and parses the response into a `ClaimsPayload`; the network call is
modelled by `llmOutput`, the raw structured output returned for this source
(or the call's failure).  The body-truncation and prompt construction only
shape the outbound request and are absorbed into the oracle. -/

/-- The loop body of `extract_claims_from_source_openai`: one validated
`ClaimOut` becomes a `Claim` carrying the run's company/period context and the
source traceability fields. -/
def claimOfOut (company_name period : String) (source : SourceDoc) (c : ClaimOut) : Claim :=
  { company_name := company_name, period := period, text := c.text,
    claim_type := c.claim_type, direction := c.direction, timeframe := c.timeframe,
    value := c.value, unit := c.unit, confidence := c.confidence,
    evidence := c.evidence, source_url := some source.url,
    source_title := some source.title }

def extract_claims_from_source_openai (llmOutput : Except String (List RawClaim))
    (company_name period : String) (source : SourceDoc) : Except String (List Claim) := do
  let raws ← llmOutput
  let payload ← validateClaimsPayload raws
  pure (payload.map (claimOfOut company_name period source))

/-! ## Freshness evaluation (`src/agent/freshness.py`)

Instants are `Int` seconds; `timedelta(hours=h)` is `h * 3600` seconds.
A row's `last_fetched` of `none` covers both an absent key and an empty
string (`_parse_dt` returns `None` for both). -/

/-- The `THRESHOLDS` dict, in seconds. -/
def THRESHOLDS : List (String × Int) :=
  [("news", 24 * 3600), ("blog", 48 * 3600), ("forum", 6 * 3600),
   ("social", 6 * 3600), ("other", 24 * 3600)]

/-- One input row of `freshness_check`.  `source_type = none` models a missing
key (`row.get` returning `None`). -/
structure FreshRow where
  source_type : Option String := none
  last_fetched : Option Int := none
deriving Repr, DecidableEq

/-- `row.get("source_type") or "other"` — Python `or` treats `""` as falsy. -/
def effSourceType (r : FreshRow) : String :=
  match r.source_type with
  | none => "other"
  | some s => if s = "" then "other" else s

/-- `THRESHOLDS.get(stype, THRESHOLDS["other"])`. -/
def rowThreshold (r : FreshRow) : Int :=
  (THRESHOLDS.lookup (effSourceType r)).getD (24 * 3600)

/-- The staleness test of the loop body:
`last is None or (now - last) > threshold`. -/
def rowIsStale (now : Int) (r : FreshRow) : Bool :=
  match r.last_fetched with
  | none => true
  | some lf => decide (now - lf > rowThreshold r)

structure FreshDetail where
  source_type : String
  last_fetched : Option Int
  threshold_hours : Rat
deriving Repr, DecidableEq

structure FreshResult where
  was_stale : Bool
  stale_types : List String
  details : List FreshDetail
  checked_at : Int
deriving Repr, DecidableEq

def insertStr (s : String) : List String → List String
  | [] => [s]
  | t :: ts => if s < t then s :: t :: ts else t :: insertStr s ts

/-- `sorted(...)` on strings. -/
def sortStrings (l : List String) : List String := l.foldr insertStr []

/-- `freshness_check(latest_by_type)`: `now` is the instant captured once at
the top of the call (`datetime.now(timezone.utc)`). -/
def freshness_check (now : Int) (rows : List FreshRow) : FreshResult :=
  let stale_types := (rows.filter (rowIsStale now)).map effSourceType
  { was_stale := !stale_types.isEmpty,
    stale_types := sortStrings stale_types.dedup,
    details := rows.map (fun r =>
      { source_type := effSourceType r, last_fetched := r.last_fetched,
        threshold_hours := (rowThreshold r : Rat) / 3600 }),
    checked_at := now }

/-! ## SERP discovery (`src/ingest/brightdata.py`)

`google_serp_urls` posts a search to Bright Data and walks the parsed JSON
result list.  The network/credential part is outside the embedding: the
function here receives `candidates`, the list the Python code selects from
the response (`organic`/`organic_results`/`results`/`search_results`), and
reproduces the selection loop.  `query`/`gl`/`hl`/`tbm` only shape the
outbound URL and are omitted. -/

structure SerpItem where
  link : Option String := none
  url : Option String := none
  href : Option String := none
  title : Option String := none
  description : Option String := none
  snippet : Option String := none
  rank : Option Int := none
deriving Repr, DecidableEq

structure SerpResult where
  url : String
  title : Option String := none
  description : Option String := none
  rank : Option Int := none
deriving Repr, DecidableEq

/-- Python `a or b` on optional strings (`""` and `None` are falsy). -/
def pyOr (a b : Option String) : Option String :=
  match a with
  | none => b
  | some s => if s = "" then b else some s

/-- Python `a or b` where `b` is a string. -/
def pyOrStr (a : Option String) (b : String) : String :=
  match a with
  | none => b
  | some s => if s = "" then b else s

/-- The selection loop of `google_serp_urls`: link fallback chain, junk filter,
stop once `max_results` entries are collected.  `acc` is the reversed list of
results so far. -/
def serpCollect (max_results : Nat) : List SerpItem → List SerpResult → List SerpResult
  | [], acc => acc.reverse
  | it :: rest, acc =>
    match pyOr it.link (pyOr it.url it.href) with
    | none => serpCollect max_results rest acc
    | some link =>
      if link = "" then serpCollect max_results rest acc
      else if pyStartsWith link "/" then serpCollect max_results rest acc
      else
        let acc' := ({ url := link, title := it.title,
                       description := pyOr it.description it.snippet,
                       rank := it.rank } : SerpResult) :: acc
        if max_results ≤ acc'.length then acc'.reverse
        else serpCollect max_results rest acc'

/-- `google_serp_urls(query, max_results=8, ...)`: slice `candidates[: max_results * 2]`
then collect at most `max_results` results. -/
def google_serp_urls (candidates : List SerpItem) (max_results : Nat := 8) : List SerpResult :=
  serpCollect max_results (candidates.take (max_results * 2)) []

/-! ## Graph store (`src/graph/upsert.py`, `src/graph/schema.py`)

`ensure_schema` declares `id` unique per label; accordingly each label is an
association list keyed by node id (`alMerge` never duplicates a key, which is
exactly what `MERGE (n:L {id: $id})` guarantees under the constraint).
Node properties are `Option`-valued: Neo4j properties are present-or-absent,
and `SET n.p = null` removes `p`.  Relationships: Cypher `MERGE` on a
relationship pattern creates the edge only when no identical edge exists, and
a `MATCH` that finds no row makes the rest of the statement a no-op (and makes
`result.single()` fail at the caller, modelled by an `Option` id result). -/

def alGet {V : Type} (k : String) : List (String × V) → Option V
  | [] => none
  | (k', v) :: rest => if k = k' then some v else alGet k rest

def alSet {V : Type} (k : String) (v : V) : List (String × V) → List (String × V)
  | [] => [(k, v)]
  | (k', v') :: rest => if k = k' then (k, v) :: rest else (k', v') :: alSet k v rest

/-- `MERGE (n {id: k}) ON CREATE SET ... ON MATCH SET ...`. -/
def alMerge {V : Type} (k : String) (create : V) (update : V → V)
    (m : List (String × V)) : List (String × V) :=
  match alGet k m with
  | none => m ++ [(k, create)]
  | some old => alSet k (update old) m

/-- Cypher `coalesce(a, b)`. -/
def coalesce {α : Type} (a b : Option α) : Option α :=
  match a with
  | some x => some x
  | none => b

structure CompanyNode where
  name : Option String := none
  ticker : Option String := none
  created_at : Option String := none
  last_updated_at : Option String := none
deriving Repr, DecidableEq

structure EventNode where
  type : Option String := none
  period : Option String := none
  event_date : Option String := none
  created_at : Option String := none
  last_updated_at : Option String := none
deriving Repr, DecidableEq

structure SourceNode where
  url : Option String := none
  title : Option String := none
  source_type : Option String := none
  site_name : Option String := none
  author : Option String := none
  language : Option String := none
  query : Option String := none
  published_at : Option String := none
  fetched_at : Option String := none
  created_at : Option String := none
  last_updated_at : Option String := none
deriving Repr, DecidableEq

structure ClaimNode where
  text : Option String := none
  claim_type : Option String := none
  direction : Option String := none
  timeframe : Option String := none
  value : Option Rat := none
  unit : Option String := none
  confidence : Option Rat := none
  evidence : Option String := none
  created_at : Option String := none
  last_updated_at : Option String := none
deriving Repr, DecidableEq

structure SignalNode where
  signal_type : Option String := none
  score : Option Rat := none
  volume : Option Int := none
  window : Option String := none
  computed_at : Option String := none
  created_at : Option String := none
  last_updated_at : Option String := none
deriving Repr, DecidableEq

/-- A relationship; `period` is the `{period: $period}` attribute of the
pipeline's `HAS_CLAIM` merge (absent on every other edge type). -/
structure Edge where
  src : String
  type : String
  dst : String
  period : Option String := none
deriving Repr, DecidableEq

structure GraphStore where
  companies : List (String × CompanyNode) := []
  events : List (String × EventNode) := []
  sources : List (String × SourceNode) := []
  claims : List (String × ClaimNode) := []
  signals : List (String × SignalNode) := []
  edges : List Edge := []
deriving Repr, DecidableEq

/-- Relationship `MERGE`: add the edge only if no identical one exists. -/
def mergeEdge (g : GraphStore) (e : Edge) : GraphStore :=
  if e ∈ g.edges then g else { g with edges := g.edges ++ [e] }

/-- `ON CREATE SET` clause of `upsert_company`. -/
def companyCreate (name : String) (ticker : Option String) (now : String) : CompanyNode :=
  { name := some name, ticker := ticker, created_at := some now,
    last_updated_at := some now }

/-- `ON MATCH SET` clause of `upsert_company`. -/
def companyOnMatch (name : String) (ticker : Option String) (now : String)
    (old : CompanyNode) : CompanyNode :=
  { old with name := some name, ticker := ticker, last_updated_at := some now }

/-- `upsert_company(driver, name, ticker)`.  `now` models the
`datetime.utcnow().isoformat()` captured in the function body. -/
def upsert_company (g : GraphStore) (now : String) (name : String)
    (ticker : Option String := none) : GraphStore × String :=
  let company_id := upsertId ["company", pyLower name, pyLower (ticker.getD "")]
  let merged := alMerge company_id (companyCreate name ticker now)
    (companyOnMatch name ticker now) g.companies
  ({ g with companies := merged }, company_id)

/-- `ON CREATE SET` clause of `upsert_event`. -/
def eventCreate (event_type period : String) (event_date : Option String)
    (now : String) : EventNode :=
  { type := some event_type, period := some period, event_date := event_date,
    created_at := some now, last_updated_at := some now }

/-- `ON MATCH SET` clause of `upsert_event`. -/
def eventOnMatch (event_type period : String) (event_date : Option String)
    (now : String) (old : EventNode) : EventNode :=
  { old with
    type := some event_type, period := some period,
    event_date := coalesce event_date old.event_date, last_updated_at := some now }

/-- `upsert_event`: `MATCH (c:Company {id})` guards the whole write; a `none`
result models the `rec["id"]` failure when the company is absent. -/
def upsert_event (g : GraphStore) (now : String) (company_id period : String)
    (event_type : String := "earnings") (event_date : Option String := none) :
    GraphStore × Option String :=
  let event_id := upsertId ["event", company_id, event_type, period]
  match alGet company_id g.companies with
  | none => (g, none)
  | some _ =>
    let merged := alMerge event_id (eventCreate event_type period event_date now)
      (eventOnMatch event_type period event_date now) g.events
    (mergeEdge { g with events := merged }
       { src := company_id, type := "HAS_EVENT", dst := event_id },
     some event_id)

/-- `ON CREATE SET` clause of `upsert_source`. -/
def sourceCreate (doc : SourceDoc) (now : String) : SourceNode :=
  { url := some doc.url, title := some doc.title, source_type := some doc.source_type,
    site_name := doc.site_name, author := doc.author, language := doc.language,
    query := doc.query, published_at := doc.published_at,
    fetched_at := some doc.fetched_at, created_at := some now,
    last_updated_at := some now }

/-- `ON MATCH SET` clause of `upsert_source`. -/
def sourceOnMatch (doc : SourceDoc) (now : String) (old : SourceNode) : SourceNode :=
  { old with
    title := coalesce (some doc.title) old.title,
    source_type := coalesce (some doc.source_type) old.source_type,
    site_name := coalesce doc.site_name old.site_name,
    author := coalesce doc.author old.author,
    language := coalesce doc.language old.language,
    query := coalesce doc.query old.query,
    published_at := coalesce doc.published_at old.published_at,
    fetched_at := coalesce (some doc.fetched_at) old.fetched_at,
    last_updated_at := some now }

/-- `upsert_source(driver, doc)`: create-if-absent with both timestamps; on
match overwrite each supplied field through `coalesce`, always refreshing
`last_updated_at`.  (`$title`, `$source_type` and `$fetched_at` are non-null
by `SourceDoc`'s typing; the cypher coalesces them all the same.) -/
def upsert_source (g : GraphStore) (now : String) (doc : SourceDoc) :
    GraphStore × String :=
  let merged := alMerge doc.source_id (sourceCreate doc now) (sourceOnMatch doc now) g.sources
  ({ g with sources := merged }, doc.source_id)

/-- `link_source_mentions_company`: `MATCH (s), (c)` then `MERGE (s)-[:MENTIONS]->(c)`. -/
def link_source_mentions_company (g : GraphStore) (source_id company_id : String) :
    GraphStore :=
  match alGet source_id g.sources, alGet company_id g.companies with
  | some _, some _ => mergeEdge g { src := source_id, type := "MENTIONS", dst := company_id }
  | _, _ => g

/-- `ON CREATE SET` clause of the standalone `upsert_claim`. -/
def claimCreate (text claim_type : String) (confidence : Rat) (now : String) : ClaimNode :=
  { text := some text, claim_type := some claim_type, confidence := some confidence,
    created_at := some now, last_updated_at := some now }

/-- `ON MATCH SET` clause of the standalone `upsert_claim`. -/
def claimOnMatch (text claim_type : String) (confidence : Rat) (now : String)
    (old : ClaimNode) : ClaimNode :=
  { old with
    text := some text, claim_type := some claim_type,
    confidence := some confidence, last_updated_at := some now }

/-- The standalone `upsert_claim`: three `MATCH` guards, then merge the claim
node with timestamps and the three relationships. -/
def upsert_claim (g : GraphStore) (now : String)
    (company_id event_id source_id text claim_type : String) (confidence : Rat) :
    GraphStore × Option String :=
  match alGet company_id g.companies, alGet event_id g.events, alGet source_id g.sources with
  | some _, some _, some _ =>
    let claim_id := upsertId ["claim", company_id, event_id, pyLower text]
    let merged := alMerge claim_id (claimCreate text claim_type confidence now)
      (claimOnMatch text claim_type confidence now) g.claims
    let g1 := { g with claims := merged }
    let g2 := mergeEdge g1 { src := event_id, type := "HAS_CLAIM", dst := claim_id }
    let g3 := mergeEdge g2 { src := source_id, type := "SUPPORTS", dst := claim_id }
    (mergeEdge g3 { src := claim_id, type := "ABOUT", dst := company_id }, some claim_id)
  | _, _, _ => (g, none)

/-- `ON CREATE SET` clause of `upsert_signal` (`eff` is the effective
`computed_at`). -/
def signalCreate (signal_type : String) (score : Rat) (volume : Int)
    (window eff : String) : SignalNode :=
  { signal_type := some signal_type, score := some score, volume := some volume,
    window := some window, computed_at := some eff }

/-- `ON MATCH SET` clause of `upsert_signal`. -/
def signalOnMatch (score : Rat) (volume : Int) (eff : String)
    (old : SignalNode) : SignalNode :=
  { old with score := some score, volume := some volume, computed_at := some eff }

/-- `upsert_signal`: two `MATCH` guards; `computed_at = computed_at or
datetime.utcnow()` (a `datetime` is never falsy, so only `None` falls back);
no `created_at`/`last_updated_at` is ever written. -/
def upsert_signal (g : GraphStore) (now : String)
    (company_id event_id signal_type : String) (score : Rat) (volume : Int)
    (window : String) (computed_at : Option String := none) :
    GraphStore × Option String :=
  match alGet company_id g.companies, alGet event_id g.events with
  | some _, some _ =>
    let eff := computed_at.getD now
    let signal_id := upsertId ["signal", company_id, event_id, signal_type, window]
    let merged := alMerge signal_id (signalCreate signal_type score volume window eff)
      (signalOnMatch score volume eff) g.signals
    let g1 := { g with signals := merged }
    let g2 := mergeEdge g1 { src := signal_id, type := "ABOUT", dst := company_id }
    (mergeEdge g2 { src := signal_id, type := "IN_WINDOW", dst := event_id },
     some signal_id)
  | _, _ => (g, none)

/-- The unconditional `SET` clause of `upsert_claim_and_links`: the content
fields are overwritten, the timestamps are not touched. -/
def claimContentSet (claim : Claim) (old : ClaimNode) : ClaimNode :=
  { old with
    text := some claim.text, claim_type := some claim.claim_type,
    direction := some claim.direction, timeframe := claim.timeframe,
    value := claim.value, unit := claim.unit, confidence := some claim.confidence,
    evidence := some claim.evidence }

/-- The pipeline's claim merge, `upsert_claim_and_links`: `MERGE (cl:Claim {id})`
followed by an unconditional `SET` of the content fields — no timestamp is
written on either path — then, only if both `MATCH`es find their node, the
`HAS_CLAIM {period}` and `SUPPORTS` relationship merges. -/
def upsert_claim_and_links (g : GraphStore) (company_id source_id period : String)
    (claim : Claim) : GraphStore :=
  let claim_id := claim.claim_id
  let merged := alMerge claim_id (claimContentSet claim {}) (claimContentSet claim) g.claims
  let g1 := { g with claims := merged }
  match alGet company_id g.companies, alGet source_id g.sources with
  | some _, some _ =>
    mergeEdge
      (mergeEdge g1 { src := company_id, type := "HAS_CLAIM", dst := claim_id,
                      period := some period })
      { src := source_id, type := "SUPPORTS", dst := claim_id }
  | _, _ => g1

/-! ## Refresh orchestrator (`src/ingest/refresh.py`)

The run's external collaborators are an explicit environment: the parsed
SERP payload for the single discovery call (or that call's failure), a fetch
oracle (`unlock_to_markdown`) and an LLM oracle per URL.  The wall clock of
the run is one `now` token.  A `trace` of external calls is returned so that
call-count properties are statable.

`refresh.py`'s per-candidate `except` block appends `{url, error}` to
`errors` and then immediately executes `raise e`, so any candidate failure
propagates out of the function: the embedding returns `.error e` there, the
appended entry being discarded exactly as Python discards the local list
when the exception unwinds.  The `source_types` parameter is assigned a
default and never used afterwards, so it is omitted. -/

inductive ExtCall where
  | discover (query : String)
  | fetchUrl (url : String)
  | extractDoc (url : String)
deriving Repr, DecidableEq

structure RefreshEnv where
  serp : Except String (List SerpItem)
  fetchMd : String → Except String String
  llm : String → Except String (List RawClaim)

structure ErrEntry where
  url : String
  error : String
deriving Repr, DecidableEq

structure RunSummary where
  company : String
  period : String
  query : String
  discovered_urls : Nat
  fetched_docs : Nat
  upserted_sources : Nat
  errors : List ErrEntry
  refreshed_at : String
deriving Repr, DecidableEq

/-- `_earnings_query`. -/
def earnings_query (company_name period : String) : String :=
  company_name ++ " " ++ period ++ " earnings recap guidance revenue EPS reaction"

/-- The claim-upsert loop: `for claim in claims: upsert_claim_and_links(...)`. -/
def applyClaims (company_id source_id period : String) :
    List Claim → GraphStore → GraphStore
  | [], g => g
  | c :: cs, g =>
    applyClaims company_id source_id period cs
      (upsert_claim_and_links g company_id source_id period c)

/-- The `SourceDoc` a candidate is normalized into on fetch success. -/
def serpDoc (now serp_query : String) (r : SerpResult) (md : String) : SourceDoc :=
  { url := r.url, title := pyOrStr r.title r.url, raw_text := md,
    source_type := "news", fetched_at := now, query := some serp_query,
    site_name := none,
    metadata := [("serp_title", r.title), ("serp_description", r.description),
                 ("serp_rank", r.rank.map toString)] }

/-- The `for r in serp_results` loop.  State: store, `len(docs)`, `upserted`,
`errors`, reversed trace.  On any candidate failure the loop records the
error entry and then re-raises, aborting the run (`raise e`). -/
def refreshGo (env : RefreshEnv) (now company_id company_name period serp_query : String) :
    List SerpResult → GraphStore → Nat → Nat → List ErrEntry → List ExtCall →
    List ExtCall × GraphStore × Except String (Nat × Nat × List ErrEntry)
  | [], g, docsCount, upserted, errors, trace =>
    (trace.reverse, g, .ok (docsCount, upserted, errors))
  | r :: rest, g, docsCount, upserted, errors, trace =>
    let trace := ExtCall.fetchUrl r.url :: trace
    match env.fetchMd r.url with
    | .error e =>
      let _ := errors ++ [{ url := r.url, error := e }]
      (trace.reverse, g, .error e)
    | .ok md =>
      let doc : SourceDoc := serpDoc now serp_query r md
      let docsCount := docsCount + 1
      let gs := upsert_source g now doc
      let trace := ExtCall.extractDoc r.url :: trace
      match extract_claims_from_source_openai (env.llm r.url) company_name period doc with
      | .error e =>
        let _ := errors ++ [{ url := r.url, error := e }]
        (trace.reverse, gs.1, .error e)
      | .ok claims =>
        let g2 := applyClaims company_id gs.2 period claims gs.1
        let g3 := link_source_mentions_company g2 gs.2 company_id
        refreshGo env now company_id company_name period serp_query rest g3
          docsCount (upserted + 1) errors trace

/-- `refresh_company_period(driver, company_id, company_name, period)`. -/
def refresh_company_period (env : RefreshEnv) (now : String) (g : GraphStore)
    (company_id company_name period : String) :
    List ExtCall × GraphStore × Except String RunSummary :=
  let serp_query := earnings_query company_name period
  match env.serp with
  | .error e => ([ExtCall.discover serp_query], g, .error e)
  | .ok payload =>
    let serp_results := google_serp_urls payload 1
    let out := refreshGo env now company_id company_name period serp_query
      serp_results g 0 0 [] []
    (ExtCall.discover serp_query :: out.1, out.2.1,
     out.2.2.map (fun st =>
       { company := company_name, period := period, query := serp_query,
         discovered_urls := serp_results.length, fetched_docs := st.1,
         upserted_sources := st.2.1, errors := st.2.2.take 3,
         refreshed_at := now }))

/-! ## Supporting lemmas -/

theorem mem_insertStr {a s : String} {l : List String} :
    a ∈ insertStr s l ↔ a = s ∨ a ∈ l := by
  induction l with
  | nil => simp [insertStr]
  | cons t ts ih =>
    by_cases h : s < t
    · simp [insertStr, h]
    · simp only [insertStr, if_neg h, List.mem_cons, ih]
      tauto

theorem mem_sortStrings {a : String} {l : List String} :
    a ∈ sortStrings l ↔ a ∈ l := by
  induction l with
  | nil => simp [sortStrings]
  | cons t ts ih =>
    simp only [sortStrings, List.foldr_cons, mem_insertStr, List.mem_cons]
    simp only [sortStrings] at ih
    rw [ih]

theorem mem_stale_types {t : String} {now : Int} {rows : List FreshRow} :
    t ∈ (freshness_check now rows).stale_types ↔
      ∃ r ∈ rows, rowIsStale now r = true ∧ effSourceType r = t := by
  simp only [freshness_check, mem_sortStrings, List.mem_dedup, List.mem_map,
    List.mem_filter]
  constructor
  · rintro ⟨r, ⟨hr, hs⟩, he⟩
    exact ⟨r, hr, hs, he⟩
  · rintro ⟨r, hr, hs, he⟩
    exact ⟨r, ⟨hr, hs⟩, he⟩

theorem rowIsStale_iff {now : Int} {r : FreshRow} :
    rowIsStale now r = true ↔
      (r.last_fetched = none ∨
        ∃ lf, r.last_fetched = some lf ∧ now - lf > rowThreshold r) := by
  cases h : r.last_fetched with
  | none => simp [rowIsStale, h]
  | some lf => simp [rowIsStale, h]

/-! ## Claim theorems -/

/-- C2: a freshness input row is reported stale iff it has no prior fetch
timestamp or the elapsed time since its latest fetch strictly exceeds the
category's threshold; elapsed time exactly equal to the threshold is not
stale, and a missing timestamp always is. -/
theorem freshness_stale_iff (now : Int) (rows : List FreshRow) (r : FreshRow)
    (h : r ∈ rows) :
    (rowIsStale now r = true ↔
      (r.last_fetched = none ∨
        ∃ lf, r.last_fetched = some lf ∧ now - lf > rowThreshold r)) ∧
    (effSourceType r ∈ (freshness_check now rows).stale_types ↔
      ∃ r' ∈ rows, rowIsStale now r' = true ∧ effSourceType r' = effSourceType r) ∧
    (rowIsStale now r = true → effSourceType r ∈ (freshness_check now rows).stale_types) ∧
    (∀ lf, r.last_fetched = some lf → now - lf = rowThreshold r →
      rowIsStale now r = false) ∧
    (r.last_fetched = none → rowIsStale now r = true) := by
  refine ⟨rowIsStale_iff, mem_stale_types, ?_, ?_, ?_⟩
  · intro hs
    exact mem_stale_types.mpr ⟨r, h, hs, rfl⟩
  · intro lf hlf heq
    simp [rowIsStale, hlf, heq]
  · intro hn
    simp [rowIsStale, hn]

/-- Witness for C2 at a concrete input: a "news" row fetched 100000 seconds
ago (more than 24 h) is stale. -/
theorem freshness_stale_iff_w :
    rowIsStale 100000 { source_type := some "news", last_fetched := some 0 } = true :=
  (freshness_stale_iff 100000 [{ source_type := some "news", last_fetched := some 0 }]
      { source_type := some "news", last_fetched := some 0 } (by decide)).1.mpr
    (Or.inr ⟨0, rfl, by decide⟩)

/-- C8: the thresholds are news 24 h, forum 6 h, social 6 h, blog 48 h, with a
24 h fallback for unconfigured categories, and one evaluation call uses the
single captured instant (`checked_at`) for every category comparison. -/
theorem freshness_thresholds_single_instant :
    (∀ lf, rowThreshold { source_type := some "news", last_fetched := lf } = 24 * 3600) ∧
    (∀ lf, rowThreshold { source_type := some "forum", last_fetched := lf } = 6 * 3600) ∧
    (∀ lf, rowThreshold { source_type := some "social", last_fetched := lf } = 6 * 3600) ∧
    (∀ lf, rowThreshold { source_type := some "blog", last_fetched := lf } = 48 * 3600) ∧
    (∀ s lf, THRESHOLDS.lookup s = none →
      rowThreshold { source_type := some s, last_fetched := lf } = 24 * 3600) ∧
    (∀ now rows, (freshness_check now rows).checked_at = now) ∧
    (∀ now rows t, t ∈ (freshness_check now rows).stale_types ↔
      ∃ r ∈ rows, rowIsStale ((freshness_check now rows).checked_at) r = true ∧
        effSourceType r = t) ∧
    (∀ now rows, (freshness_check now rows).details = rows.map (fun r =>
      { source_type := effSourceType r, last_fetched := r.last_fetched,
        threshold_hours := (rowThreshold r : Rat) / 3600 })) := by
  refine ⟨fun lf => rfl, fun lf => rfl, fun lf => rfl, fun lf => rfl, ?_, fun now rows => rfl,
    ?_, fun now rows => rfl⟩
  · intro s lf hnone
    by_cases hs : s = ""
    · subst hs; rfl
    · simp only [rowThreshold, effSourceType, if_neg hs, hnone, Option.getD_none]
  · intro now rows t
    exact mem_stale_types

/-- Witness for C8: the unconfigured category "docs" falls back to 24 h. -/
theorem freshness_thresholds_single_instant_w :
    rowThreshold { source_type := some "docs", last_fetched := none } = 24 * 3600 :=
  freshness_thresholds_single_instant.2.2.2.2.1 "docs" none (by decide)

def ExtCall.isDiscover : ExtCall → Bool
  | ExtCall.discover _ => true
  | _ => false

theorem serpCollect_length_le {max_results : Nat} (items : List SerpItem)
    (acc : List SerpResult) (h : acc.length < max_results) :
    (serpCollect max_results items acc).length ≤ max_results := by
  induction items generalizing acc with
  | nil => simpa [serpCollect] using Nat.le_of_lt h
  | cons it rest ih =>
    simp only [serpCollect]
    cases pyOr it.link (pyOr it.url it.href) with
    | none => exact ih acc h
    | some link =>
      by_cases h1 : link = ""
      · simpa [h1] using ih acc h
      · by_cases h2 : pyStartsWith link "/"
        · simpa [h1, h2] using ih acc h
        · simp only [h1, h2, if_neg, if_false, ite_false]
          by_cases h3 : max_results ≤ acc.length + 1
          · simpa [h3] using h
          · simpa [h3] using ih _ (by simpa using Nat.lt_of_not_le h3)

theorem countP_reverse_eq (p : ExtCall → Bool) (l : List ExtCall) :
    l.reverse.countP p = l.countP p := by
  induction l with
  | nil => rfl
  | cons a t ih => simp [List.countP_cons, List.countP_append, ih]

theorem refreshGo_trace_discover_count (env : RefreshEnv)
    (now company_id company_name period serp_query : String) :
    ∀ (rs : List SerpResult) (g : GraphStore) (d u : Nat) (errs : List ErrEntry)
      (tr : List ExtCall),
      ((refreshGo env now company_id company_name period serp_query rs g d u errs tr).1).countP
          ExtCall.isDiscover = tr.countP ExtCall.isDiscover := by
  intro rs
  induction rs with
  | nil =>
    intro g d u errs tr
    simp [refreshGo, countP_reverse_eq]
  | cons r rest ih =>
    intro g d u errs tr
    simp only [refreshGo]
    split
    · simp [countP_reverse_eq, List.countP_cons, ExtCall.isDiscover]
    · split
      · simp [countP_reverse_eq, List.countP_cons, ExtCall.isDiscover]
      · rw [ih]
        simp [List.countP_cons, ExtCall.isDiscover]

/-- C7: discovery happens exactly once per refresh run (one `discover` event
in the run's external-call trace), `google_serp_urls` never returns more than
`max_results` entries, and the configured default cap is 8. -/
theorem discovery_called_once_and_capped :
    (∀ (candidates : List SerpItem) (max_results : Nat),
      (google_serp_urls candidates max_results).length ≤ max_results) ∧
    (∀ candidates : List SerpItem, google_serp_urls candidates = google_serp_urls candidates 8) ∧
    (∀ candidates : List SerpItem, (google_serp_urls candidates).length ≤ 8) ∧
    (∀ (env : RefreshEnv) (now : String) (g : GraphStore)
      (company_id company_name period : String),
      ((refresh_company_period env now g company_id company_name period).1).countP
        ExtCall.isDiscover = 1) := by
  have hcap : ∀ (candidates : List SerpItem) (max_results : Nat),
      (google_serp_urls candidates max_results).length ≤ max_results := by
    intro candidates max_results
    match max_results with
    | 0 => simp [google_serp_urls, serpCollect]
    | m + 1 =>
      exact serpCollect_length_le _ [] (Nat.succ_pos m)
  refine ⟨hcap, fun candidates => rfl, fun candidates => hcap candidates 8, ?_⟩
  intro env now g company_id company_name period
  simp only [refresh_company_period]
  cases env.serp with
  | error e => simp [List.countP_cons, ExtCall.isDiscover]
  | ok payload =>
    simp only [List.countP_cons]
    rw [refreshGo_trace_discover_count]
    simp [ExtCall.isDiscover]

section AssocLemmas

variable {V : Type}

theorem alGet_alSet_self (k : String) (v : V) (m : List (String × V)) :
    alGet k (alSet k v m) = some v := by
  induction m with
  | nil => simp [alSet, alGet]
  | cons p rest ih =>
    by_cases h : k = p.1
    · simp [alSet, alGet, h]
    · simp [alSet, alGet, h, ih]

theorem alGet_alSet_ne (k k' : String) (v : V) (m : List (String × V)) (h : k' ≠ k) :
    alGet k' (alSet k v m) = alGet k' m := by
  induction m with
  | nil => simp [alSet, alGet, h]
  | cons p rest ih =>
    by_cases hk : k = p.1
    · subst hk
      simp [alSet, alGet, h, ih]
    · by_cases hk' : k' = p.1
      · simp [alSet, alGet, hk, hk']
      · simp [alSet, alGet, hk, hk', ih]

theorem alSet_map_fst (k : String) (v : V) (m : List (String × V))
    (h : (alGet k m).isSome) : (alSet k v m).map Prod.fst = m.map Prod.fst := by
  induction m with
  | nil => simp [alGet] at h
  | cons p rest ih =>
    by_cases hk : k = p.1
    · simp [alSet, hk]
    · simp only [alGet, if_neg hk] at h
      simp [alSet, hk, ih h]

theorem alSet_eq_of_get_eq (k : String) (v : V) (m : List (String × V))
    (h : alGet k m = some v) : alSet k v m = m := by
  induction m with
  | nil => simp [alGet] at h
  | cons p rest ih =>
    by_cases hk : k = p.1
    · simp only [alGet, if_pos hk] at h
      cases p with
      | mk k1 v1 =>
        simp at hk
        subst hk
        simp at h
        simp [alSet, h]
    · simp only [alGet, if_neg hk] at h
      simp [alSet, hk, ih h]

theorem alGet_alMerge_self (k : String) (c : V) (u : V → V) (m : List (String × V)) :
    alGet k (alMerge k c u m) = some ((alGet k m).elim c u) := by
  unfold alMerge
  cases h : alGet k m with
  | none =>
    induction m with
    | nil => simp [alGet]
    | cons p rest ih =>
      by_cases hk : k = p.1
      · simp [alGet, hk] at h
      · simp only [alGet, if_neg hk] at h
        simp [alGet, hk, ih h]
  | some old => simp [alGet_alSet_self]

theorem alGet_alMerge_ne (k k' : String) (c : V) (u : V → V) (m : List (String × V))
    (h : k' ≠ k) : alGet k' (alMerge k c u m) = alGet k' m := by
  unfold alMerge
  cases hg : alGet k m with
  | none =>
    induction m with
    | nil => simp [alGet, h]
    | cons p rest ih =>
      by_cases hk : k = p.1
      · simp [alGet, hk] at hg
      · simp only [alGet, if_neg hk] at hg
        by_cases hk' : k' = p.1
        · simp [alGet, hk']
        · simp [alGet, hk', ih hg]
  | some old => exact alGet_alSet_ne k k' (u old) m h

theorem alMerge_map_fst (k : String) (c : V) (u : V → V) (m : List (String × V)) :
    (alMerge k c u m).map Prod.fst =
      if (alGet k m).isSome then m.map Prod.fst else m.map Prod.fst ++ [k] := by
  unfold alMerge
  cases h : alGet k m with
  | none => simp
  | some old => simp [alSet_map_fst k (u old) m (by simp [h])]

theorem alGet_isSome_iff_mem_map_fst (k : String) (m : List (String × V)) :
    (alGet k m).isSome ↔ k ∈ m.map Prod.fst := by
  induction m with
  | nil => simp [alGet]
  | cons p rest ih =>
    by_cases hk : k = p.1
    · simp [alGet, hk]
    · simp [alGet, hk, ih]

theorem mem_alMerge_map_fst (k k' : String) (c : V) (u : V → V) (m : List (String × V)) :
    k' ∈ (alMerge k c u m).map Prod.fst ↔ k' = k ∨ k' ∈ m.map Prod.fst := by
  rw [alMerge_map_fst]
  split
  · rename_i h
    refine ⟨Or.inr, ?_⟩
    rintro (rfl | hm)
    · exact (alGet_isSome_iff_mem_map_fst k' m).mp h
    · exact hm
  · simp [List.mem_append, or_comm]

end AssocLemmas

theorem mergeEdge_companies (g : GraphStore) (e : Edge) :
    (mergeEdge g e).companies = g.companies := by
  unfold mergeEdge
  split <;> rfl

theorem mergeEdge_events (g : GraphStore) (e : Edge) :
    (mergeEdge g e).events = g.events := by
  unfold mergeEdge
  split <;> rfl

theorem mergeEdge_sources (g : GraphStore) (e : Edge) :
    (mergeEdge g e).sources = g.sources := by
  unfold mergeEdge
  split <;> rfl

theorem mergeEdge_claims (g : GraphStore) (e : Edge) :
    (mergeEdge g e).claims = g.claims := by
  unfold mergeEdge
  split <;> rfl

theorem mergeEdge_signals (g : GraphStore) (e : Edge) :
    (mergeEdge g e).signals = g.signals := by
  unfold mergeEdge
  split <;> rfl

theorem upsert_claim_and_links_claims (g : GraphStore)
    (company_id source_id period : String) (c : Claim) :
    (upsert_claim_and_links g company_id source_id period c).claims =
      alMerge c.claim_id (claimContentSet c {}) (claimContentSet c) g.claims := by
  unfold upsert_claim_and_links
  rcases alGet company_id g.companies with _ | cn <;>
    rcases alGet source_id g.sources with _ | sn <;>
      simp [mergeEdge_claims]

/-- The claims component of `upsert_claim_and_links` in every branch is the
single keyed merge on `claim.claim_id`. -/
theorem upsert_claim_and_links_claims_keys (g : GraphStore)
    (company_id source_id period : String) (c : Claim) :
    (upsert_claim_and_links g company_id source_id period c).claims.map Prod.fst =
      if (alGet c.claim_id g.claims).isSome then g.claims.map Prod.fst
      else g.claims.map Prod.fst ++ [c.claim_id] := by
  rw [upsert_claim_and_links_claims, alMerge_map_fst]

/-- C6: the Claim identity is a pure function of exactly (company name,
period, claim type, timeframe-or-empty, normalized text) — trimmed,
lowercased, stable order, `" | "` separator — independent of the supporting
source, so re-merging the same claim content from a different source reuses
the stored Claim node instead of creating a second one. -/
theorem claim_id_pure_and_source_independent (c c1 c2 : Claim) (u t : Option String)
    (h1 : c1.company_name = c2.company_name) (h2 : c1.period = c2.period)
    (h3 : c1.claim_type = c2.claim_type)
    (h4 : c1.timeframe.getD "" = c2.timeframe.getD "") (h5 : c1.text = c2.text) :
    c.claim_id = sha256Hex24 (pyStrip (String.intercalate " | "
        ([c.company_name, c.period, c.claim_type, c.timeframe.getD "", c.text].map
          (fun p => pyLower (pyStrip p))))) ∧
    ({ c with source_url := u, source_title := t } : Claim).claim_id = c.claim_id ∧
    c1.claim_id = c2.claim_id ∧
    (∀ (g : GraphStore) (company_id source_id1 source_id2 period : String),
      (upsert_claim_and_links
          (upsert_claim_and_links g company_id source_id1 period c1)
          company_id source_id2 period c2).claims.map Prod.fst =
        (upsert_claim_and_links g company_id source_id1 period c1).claims.map Prod.fst) := by
  have hid : c1.claim_id = c2.claim_id := by
    simp [Claim.claim_id, stable_id_from_text, h1, h2, h3, h4, h5]
  refine ⟨rfl, rfl, hid, ?_⟩
  intro g company_id source_id1 source_id2 period
  rw [upsert_claim_and_links_claims_keys]
  have hpresent :
      (alGet c2.claim_id
        (upsert_claim_and_links g company_id source_id1 period c1).claims).isSome := by
    rw [alGet_isSome_iff_mem_map_fst, upsert_claim_and_links_claims_keys, ← hid]
    split
    · rename_i hg
      exact (alGet_isSome_iff_mem_map_fst _ _).mp hg
    · simp
  simp [hpresent]

/-- Witness for C6: two claims with the same identity fields but different
sources (and `none` vs `some ""` timeframe) share one id; merging the second
adds no node. -/
theorem claim_id_pure_and_source_independent_w :
    ({ company_name := "Acme", period := "Q1", text := "revenue rose",
       source_url := some "http://a.com" } : Claim).claim_id =
      ({ company_name := "Acme", period := "Q1", text := "revenue rose",
         timeframe := some "", source_url := some "http://b.com" } : Claim).claim_id :=
  (claim_id_pure_and_source_independent
    { company_name := "Acme", period := "Q1", text := "revenue rose" }
    { company_name := "Acme", period := "Q1", text := "revenue rose",
      source_url := some "http://a.com" }
    { company_name := "Acme", period := "Q1", text := "revenue rose",
      timeframe := some "", source_url := some "http://b.com" }
    none none rfl rfl rfl (by decide) rfl).2.2.1

theorem coalesce_isSome_of_right {α : Type} (a b : Option α) (h : b.isSome) :
    (coalesce a b).isSome := by
  cases a <;> simp [coalesce, h]

/-- C10: on the update path of `upsert_source`, every field is written through
`coalesce(new, old)`, so it is overwritten only when the newly supplied value is
non-null; a field that was once non-null is never replaced by null by a later
merge. -/
theorem upsert_source_never_nulls_fields (g : GraphStore) (now : String)
    (doc : SourceDoc) (o : SourceNode) (h : alGet doc.source_id g.sources = some o) :
    ∃ n, alGet doc.source_id (upsert_source g now doc).1.sources = some n ∧
      n.title = coalesce (some doc.title) o.title ∧
      n.source_type = coalesce (some doc.source_type) o.source_type ∧
      n.site_name = coalesce doc.site_name o.site_name ∧
      n.author = coalesce doc.author o.author ∧
      n.language = coalesce doc.language o.language ∧
      n.query = coalesce doc.query o.query ∧
      n.published_at = coalesce doc.published_at o.published_at ∧
      n.fetched_at = coalesce (some doc.fetched_at) o.fetched_at ∧
      ((o.title.isSome → n.title.isSome) ∧
       (o.source_type.isSome → n.source_type.isSome) ∧
       (o.site_name.isSome → n.site_name.isSome) ∧
       (o.author.isSome → n.author.isSome) ∧
       (o.language.isSome → n.language.isSome) ∧
       (o.query.isSome → n.query.isSome) ∧
       (o.published_at.isSome → n.published_at.isSome) ∧
       (o.fetched_at.isSome → n.fetched_at.isSome)) := by
  refine ⟨sourceOnMatch doc now o, ?_, rfl, rfl, rfl, rfl, rfl, rfl, rfl, rfl,
    ?_, ?_, ?_, ?_, ?_, ?_, ?_, ?_⟩
  · have := alGet_alMerge_self doc.source_id (sourceCreate doc now)
      (sourceOnMatch doc now) g.sources
    simpa [upsert_source, h] using this
  all_goals
    intro hs
    first
      | exact coalesce_isSome_of_right _ _ hs
      | simp [sourceOnMatch, coalesce]

/-- Witness for C10: a stored source whose `author` was set survives a re-merge
that supplies a null author. -/
theorem upsert_source_never_nulls_fields_w :
    ∃ n, alGet (SourceDoc.source_id
          { url := "http://a.com/x", title := "T2", raw_text := "b",
            source_type := "news", fetched_at := "T1" })
        (upsert_source
          { sources := [(SourceDoc.source_id
              { url := "http://a.com/x", title := "T2", raw_text := "b",
                source_type := "news", fetched_at := "T1" },
            { author := some "jo", created_at := some "T0" })] }
          "T1"
          { url := "http://a.com/x", title := "T2", raw_text := "b",
            source_type := "news", fetched_at := "T1" }).1.sources = some n ∧
      n.author.isSome := by
  rcases upsert_source_never_nulls_fields
      { sources := [(SourceDoc.source_id
          { url := "http://a.com/x", title := "T2", raw_text := "b",
            source_type := "news", fetched_at := "T1" },
        { author := some "jo", created_at := some "T0" })] }
      "T1"
      { url := "http://a.com/x", title := "T2", raw_text := "b",
        source_type := "news", fetched_at := "T1" }
      { author := some "jo", created_at := some "T0" }
      (by simp [alGet]) with ⟨n, hget, hfields⟩
  exact ⟨n, hget, hfields.2.2.2.2.2.2.2.2.2.2.2.1 rfl⟩

theorem validateClaimsPayload_mem (rs : List RawClaim) (cs : List ClaimOut)
    (h : validateClaimsPayload rs = .ok cs) :
    ∀ c ∈ cs, ∃ r ∈ rs, validateClaimOut r = .ok c := by
  induction rs generalizing cs with
  | nil =>
    simp only [validateClaimsPayload, Except.ok.injEq] at h
    subst h
    simp
  | cons r rest ih =>
    simp only [validateClaimsPayload, bind, Except.bind] at h
    cases hv : validateClaimOut r with
    | error e => rw [hv] at h; exact absurd h (by simp)
    | ok c0 =>
      rw [hv] at h
      cases hrest : validateClaimsPayload rest with
      | error e => rw [hrest] at h; exact absurd h (by simp)
      | ok cs0 =>
        rw [hrest] at h
        simp only [pure, Except.pure, Except.ok.injEq] at h
        subst h
        intro c hc
        rcases List.mem_cons.mp hc with rfl | hc2
        · exact ⟨r, by simp, hv⟩
        · rcases ih cs0 hrest c hc2 with ⟨r1, hr1, hv1⟩
          exact ⟨r1, by simp [hr1], hv1⟩

theorem validateClaimOut_confidence_bounds (r : RawClaim) (c : ClaimOut)
    (h : validateClaimOut r = .ok c) : 0 ≤ c.confidence ∧ c.confidence ≤ 1 := by
  unfold validateClaimOut at h
  split at h
  · exact absurd h (by simp)
  · split at h
    · split at h
      · split at h
        · rename_i hconf
          cases h
          exact hconf
        · exact absurd h (by simp)
      · exact absurd h (by simp)
    · exact absurd h (by simp)

/-- Counterexample to C9 as stated: a confidence of 2 coming from extraction is
not clamped into `[0, 1]` — pydantic's `Field(ge=0.0, le=1.0)` rejects the
payload with a validation error. -/
theorem confidence_out_of_range_errors_cx :
    validateClaimOut { text := some "t", confidence := some 2 } =
      .error "confidence: value out of range [0, 1]" := by
  rfl

/-- C9 (amended): every claim that passes extraction-schema validation — hence
every claim the pipeline merges — has confidence in `[0, 1]`; an out-of-range
confidence causes a validation error for that extraction call rather than being
clamped; and a direction of "unknown" is a valid terminal value that never
causes an error. -/
theorem confidence_validated_not_clamped
    (r0 : RawClaim) (t0 : String) (h0 : r0.text = some t0)
    (h1 : r0.claim_type.getD "other" ∈ ClaimTypeValues)
    (h2 : r0.direction = some "unknown")
    (h3 : 0 ≤ r0.confidence.getD (mkRat 1 2) ∧ r0.confidence.getD (mkRat 1 2) ≤ 1) :
    (∀ (r : RawClaim) (c : ClaimOut), validateClaimOut r = .ok c →
      0 ≤ c.confidence ∧ c.confidence ≤ 1) ∧
    (∀ (llmOutput : Except String (List RawClaim)) (company_name period : String)
      (doc : SourceDoc) (claims : List Claim),
      extract_claims_from_source_openai llmOutput company_name period doc = .ok claims →
      ∀ cl ∈ claims, 0 ≤ cl.confidence ∧ cl.confidence ≤ 1) ∧
    (∃ c, validateClaimOut r0 = .ok c ∧ c.direction = "unknown") := by
  refine ⟨validateClaimOut_confidence_bounds, ?_, ?_⟩
  · intro llmOutput company_name period doc claims h cl hcl
    unfold extract_claims_from_source_openai at h
    simp only [bind, Except.bind] at h
    split at h
    · exact absurd h (by simp)
    · rename_i raws
      split at h
      · exact absurd h (by simp)
      · rename_i payload hval
        simp only [pure, Except.pure, Except.ok.injEq] at h
        subst h
        rcases List.mem_map.mp hcl with ⟨c0, hc0, rfl⟩
        rcases validateClaimsPayload_mem raws payload hval c0 hc0 with ⟨r, _, hr⟩
        exact validateClaimOut_confidence_bounds r c0 hr
  · refine ⟨{ text := t0,
              claim_type := r0.claim_type.getD "other",
              direction := "unknown",
              timeframe := r0.timeframe, value := r0.value, unit := r0.unit,
              confidence := r0.confidence.getD (mkRat 1 2),
              evidence := r0.evidence.getD "" }, ?_, rfl⟩
    unfold validateClaimOut
    rw [h0]
    simp only [h2, Option.getD_some]
    rw [if_pos h1, if_pos (by decide : ("unknown" : String) ∈ DirectionValues), if_pos h3]

/-- Witness for C9 (amended), at a concrete unknown-direction raw claim. -/
theorem confidence_validated_not_clamped_w :
    ∃ c, validateClaimOut
        { text := some "demand flat", direction := some "unknown" } = .ok c ∧
      c.direction = "unknown" :=
  (confidence_validated_not_clamped
    { text := some "demand flat", direction := some "unknown" }
    "demand flat" rfl (by decide) rfl (by decide)).2.2

/-! ### End-to-end counterexample runs (`refresh_company_period` on concrete
environments) -/

/-- A 3-result SERP payload. -/
def serpItems3 : List SerpItem :=
  [{ link := some "http://a.com/x" }, { link := some "http://b.com/y" },
   { link := some "http://c.com/z" }]

/-- Environment in which every fetch fails. -/
def envFetchFail : RefreshEnv :=
  { serp := .ok serpItems3,
    fetchMd := fun _ => .error "fetch failed",
    llm := fun _ => .ok [] }

/-- C1, behavior at the failing input: discovery is capped at
`max_results=1` (a 3-candidate run cannot even occur; the default cap 8 would
give all 3), and the single candidate's fetch failure propagates out of
`refresh_company_period` — the run aborts with no summary and an unchanged
store, instead of recording the error and continuing. -/
theorem fetch_failure_aborts_run :
    (google_serp_urls serpItems3 1).length = 1 ∧
    (google_serp_urls serpItems3).length = 3 ∧
    (refresh_company_period envFetchFail "T1" {} "cid" "Acme" "Q1").2.2 =
      .error "fetch failed" ∧
    (refresh_company_period envFetchFail "T1" {} "cid" "Acme" "Q1").2.1 =
      ({} : GraphStore) := by
  refine ⟨by rfl, by rfl, by rfl, by rfl⟩

/-- Environment whose extraction returns one claim with an empty evidence
excerpt. -/
def envEmptyEvidence : RefreshEnv :=
  { serp := .ok [{ link := some "http://a.com/x" }],
    fetchMd := fun _ => .ok "body text",
    llm := fun _ => .ok [{ text := some "revenue up", evidence := some "" }] }

/-- C4, behavior at the failing input: a claim whose evidence excerpt is empty
passes validation (`evidence: str = ""`), is merged into the store by
`upsert_claim_and_links`, and the run reports success — nothing rejects it. -/
theorem empty_evidence_claim_is_merged :
    ((refresh_company_period envEmptyEvidence "T1" {} "cid" "Acme" "Q1").2.2).isOk = true ∧
    ((refresh_company_period envEmptyEvidence "T1" {} "cid" "Acme" "Q1").2.1.claims.map
      (fun p => p.2.evidence)) = [some ""] := by
  refine ⟨by rfl, by rfl⟩

/-- Counterexample to C5 as stated: creating a Claim node through the
pipeline's merge (`upsert_claim_and_links`) writes neither `created_at` nor
`last_updated_at` — the claimed "rewritten on both paths / set on creation"
fails for the Claim kind (the function does not even receive a merge time). -/
theorem upsert_claim_and_links_writes_no_timestamps_cx :
    ((upsert_claim_and_links {} "cid" "sid" "Q1"
        { company_name := "Acme", period := "Q1", text := "x" }).claims.map
      (fun p => (p.2.created_at, p.2.last_updated_at))) = [(none, none)] := by
  rfl

/-- C5 (amended): `upsert_company`, `upsert_event`, `upsert_source` and the
standalone `upsert_claim` set both timestamps on creation and refresh only
`last_updated_at` on match, never touching `created_at`; but the pipeline's
claim merge `upsert_claim_and_links` writes neither timestamp on either path,
and `upsert_signal` maintains only `computed_at`, never
`created_at`/`last_updated_at`. -/
theorem merge_timestamp_discipline :
    (∀ name ticker now, (companyCreate name ticker now).created_at = some now ∧
      (companyCreate name ticker now).last_updated_at = some now) ∧
    (∀ name ticker now o, (companyOnMatch name ticker now o).created_at = o.created_at ∧
      (companyOnMatch name ticker now o).last_updated_at = some now) ∧
    (∀ (g : GraphStore) (now name : String) (ticker : Option String),
      alGet (upsert_company g now name ticker).2 (upsert_company g now name ticker).1.companies =
        some ((alGet (upsert_company g now name ticker).2 g.companies).elim
          (companyCreate name ticker now) (companyOnMatch name ticker now))) ∧
    (∀ et per ed now, (eventCreate et per ed now).created_at = some now ∧
      (eventCreate et per ed now).last_updated_at = some now) ∧
    (∀ et per ed now o, (eventOnMatch et per ed now o).created_at = o.created_at ∧
      (eventOnMatch et per ed now o).last_updated_at = some now) ∧
    (∀ (g : GraphStore) (now cid per et : String) (ed : Option String) (eid : String),
      (upsert_event g now cid per et ed).2 = some eid →
      alGet eid (upsert_event g now cid per et ed).1.events =
        some ((alGet eid g.events).elim (eventCreate et per ed now) (eventOnMatch et per ed now))) ∧
    (∀ doc now, (sourceCreate doc now).created_at = some now ∧
      (sourceCreate doc now).last_updated_at = some now) ∧
    (∀ doc now o, (sourceOnMatch doc now o).created_at = o.created_at ∧
      (sourceOnMatch doc now o).last_updated_at = some now) ∧
    (∀ (g : GraphStore) (now : String) (doc : SourceDoc),
      alGet doc.source_id (upsert_source g now doc).1.sources =
        some ((alGet doc.source_id g.sources).elim (sourceCreate doc now) (sourceOnMatch doc now))) ∧
    (∀ tx ct cf now, (claimCreate tx ct cf now).created_at = some now ∧
      (claimCreate tx ct cf now).last_updated_at = some now) ∧
    (∀ tx ct cf now o, (claimOnMatch tx ct cf now o).created_at = o.created_at ∧
      (claimOnMatch tx ct cf now o).last_updated_at = some now) ∧
    (∀ (g : GraphStore) (cid sid per : String) (c : Claim),
      alGet c.claim_id (upsert_claim_and_links g cid sid per c).claims =
        some ((alGet c.claim_id g.claims).elim (claimContentSet c {}) (claimContentSet c))) ∧
    (∀ c o, (claimContentSet c o).created_at = o.created_at ∧
      (claimContentSet c o).last_updated_at = o.last_updated_at) ∧
    (({} : ClaimNode).created_at = none ∧ ({} : ClaimNode).last_updated_at = none) ∧
    (∀ st sc vol w eff, (signalCreate st sc vol w eff).created_at = none ∧
      (signalCreate st sc vol w eff).last_updated_at = none) ∧
    (∀ sc vol eff o, (signalOnMatch sc vol eff o).created_at = o.created_at ∧
      (signalOnMatch sc vol eff o).last_updated_at = o.last_updated_at) := by
  refine ⟨fun name ticker now => ⟨rfl, rfl⟩, fun name ticker now o => ⟨rfl, rfl⟩, ?_,
    fun et per ed now => ⟨rfl, rfl⟩, fun et per ed now o => ⟨rfl, rfl⟩, ?_,
    fun doc now => ⟨rfl, rfl⟩, fun doc now o => ⟨rfl, rfl⟩, ?_,
    fun tx ct cf now => ⟨rfl, rfl⟩, fun tx ct cf now o => ⟨rfl, rfl⟩, ?_,
    fun c o => ⟨rfl, rfl⟩, ⟨rfl, rfl⟩,
    fun st sc vol w eff => ⟨rfl, rfl⟩, fun sc vol eff o => ⟨rfl, rfl⟩⟩
  · intro g now name ticker
    exact alGet_alMerge_self _ _ _ _
  · intro g now cid per et ed eid h
    unfold upsert_event at h ⊢
    cases hc : alGet cid g.companies with
    | none =>
      rw [hc] at h
      exact absurd h (by simp)
    | some cn =>
      rw [hc] at h
      try rw [hc]
      dsimp only at h ⊢
      simp only [Option.some.injEq] at h
      subst h
      rw [mergeEdge_events]
      exact alGet_alMerge_self _ _ _ _
  · intro g now doc
    exact alGet_alMerge_self _ _ _ _
  · intro g cid sid per c
    rw [upsert_claim_and_links_claims]
    exact alGet_alMerge_self _ _ _ _

/-- Witness for C5 (amended): creating an Event on a store that holds the
company gives a node carrying both timestamps. -/
theorem merge_timestamp_discipline_w :
    alGet (upsertId ["event", "cid", "earnings", "Q1"])
        (upsert_event { companies := [("cid", { name := some "Acme" })] }
          "T1" "cid" "Q1").1.events =
      some (eventCreate "earnings" "Q1" none "T1") := by
  have h := merge_timestamp_discipline.2.2.2.2.2.1
    { companies := [("cid", { name := some "Acme" })] } "T1" "cid" "Q1" "earnings" none
    (upsertId ["event", "cid", "earnings", "Q1"]) rfl
  simp only [alGet] at h
  exact h

/-! ## C3 machinery: observable state and merge idempotence -/

/-- Observable part of a node: everything except `last_updated_at`. -/
def CompanyNode.obs (n : CompanyNode) : CompanyNode := { n with last_updated_at := none }

def EventNode.obs (n : EventNode) : EventNode := { n with last_updated_at := none }

def SourceNode.obs (n : SourceNode) : SourceNode := { n with last_updated_at := none }

def ClaimNode.obs (n : ClaimNode) : ClaimNode := { n with last_updated_at := none }

def SignalNode.obs (n : SignalNode) : SignalNode := { n with last_updated_at := none }

/-- Observable state of the whole store: every node modulo `last_updated_at`,
edges as they are. -/
def GraphStore.obs (g : GraphStore) : GraphStore :=
  { companies := g.companies.map (fun p => (p.1, p.2.obs)),
    events := g.events.map (fun p => (p.1, p.2.obs)),
    sources := g.sources.map (fun p => (p.1, p.2.obs)),
    claims := g.claims.map (fun p => (p.1, p.2.obs)),
    signals := g.signals.map (fun p => (p.1, p.2.obs)),
    edges := g.edges }

theorem alSet_map_congr {V : Type} (f : V → V) (k : String) (v w : V)
    (m : List (String × V)) (hget : alGet k m = some w) (hf : f v = f w) :
    (alSet k v m).map (fun p => (p.1, f p.2)) = m.map (fun p => (p.1, f p.2)) := by
  induction m with
  | nil => simp [alGet] at hget
  | cons p rest ih =>
    by_cases hk : k = p.1
    · simp only [alGet, if_pos hk] at hget
      cases hget
      simp [alSet, hk, hf]
    · simp only [alGet, if_neg hk] at hget
      simp [alSet, hk, ih hget]

/-- Merging the same key twice changes nothing observable, provided the second
merge's clauses agree with the first's up to the observation map. -/
theorem alMerge_twice_map_obs {V : Type} (f : V → V) (k : String) (c1 c2 : V)
    (u1 u2 : V → V) (m : List (String × V))
    (h1 : f (u2 c1) = f c1) (h2 : ∀ o, f (u2 (u1 o)) = f (u1 o)) :
    (alMerge k c2 u2 (alMerge k c1 u1 m)).map (fun p => (p.1, f p.2)) =
      (alMerge k c1 u1 m).map (fun p => (p.1, f p.2)) := by
  have hget := alGet_alMerge_self k c1 u1 m
  have hstep : alMerge k c2 u2 (alMerge k c1 u1 m) =
      alSet k (u2 ((alGet k m).elim c1 u1)) (alMerge k c1 u1 m) := by
    unfold alMerge
    rw [show alGet k (match alGet k m with
        | none => m ++ [(k, c1)]
        | some old => alSet k (u1 old) m) = some ((alGet k m).elim c1 u1) from hget]
  rw [hstep]
  refine alSet_map_congr f k _ _ _ hget ?_
  cases hm : alGet k m with
  | none => simpa using h1
  | some o => simpa using h2 o

theorem mergeEdge_edges (g : GraphStore) (e : Edge) :
    (mergeEdge g e).edges = if e ∈ g.edges then g.edges else g.edges ++ [e] := by
  unfold mergeEdge
  split <;> simp_all

theorem mem_mergeEdge_edges (g : GraphStore) (e e' : Edge) :
    e' ∈ (mergeEdge g e).edges ↔ e' = e ∨ e' ∈ g.edges := by
  rw [mergeEdge_edges]
  split
  · rename_i h
    exact ⟨Or.inr, fun h' => h'.elim (fun hq => hq ▸ h) id⟩
  · simp [or_comm]

theorem mergeEdge_of_mem (g : GraphStore) (e : Edge) (h : e ∈ g.edges) :
    mergeEdge g e = g := by
  unfold mergeEdge
  simp [h]

theorem merge_idem_company (g : GraphStore) (t1 t2 name : String) (ticker : Option String) :
    ((upsert_company (upsert_company g t1 name ticker).1 t2 name ticker).1).obs =
      ((upsert_company g t1 name ticker).1).obs := by
  simp only [upsert_company, GraphStore.obs]
  simp only [GraphStore.mk.injEq, and_true, true_and]
  exact alMerge_twice_map_obs CompanyNode.obs _ _ _ _ _ _ rfl (fun o => rfl)

theorem coalesce_self {α : Type} (a : Option α) : coalesce a a = a := by
  cases a <;> rfl

theorem coalesce_coalesce {α : Type} (a b : Option α) :
    coalesce a (coalesce a b) = coalesce a b := by
  cases a <;> rfl

theorem event_obs_h1 (et per : String) (ed : Option String) (t1 t2 : String) :
    (eventOnMatch et per ed t2 (eventCreate et per ed t1)).obs =
      (eventCreate et per ed t1).obs := by
  simp [eventOnMatch, eventCreate, EventNode.obs, coalesce_self]

theorem event_obs_h2 (et per : String) (ed : Option String) (t1 t2 : String) (o : EventNode) :
    (eventOnMatch et per ed t2 (eventOnMatch et per ed t1 o)).obs =
      (eventOnMatch et per ed t1 o).obs := by
  simp [eventOnMatch, EventNode.obs, coalesce_coalesce]

theorem merge_idem_event (g : GraphStore) (t1 t2 cid per et : String) (ed : Option String) :
    ((upsert_event (upsert_event g t1 cid per et ed).1 t2 cid per et ed).1).obs =
      ((upsert_event g t1 cid per et ed).1).obs := by
  unfold upsert_event
  cases hc : alGet cid g.companies with
  | none =>
    simp [hc]
  | some cn =>
    have hc2 : alGet cid (mergeEdge
        { g with events := alMerge (upsertId ["event", cid, et, per])
                             (eventCreate et per ed t1) (eventOnMatch et per ed t1) g.events }
        { src := cid, type := "HAS_EVENT", dst := upsertId ["event", cid, et, per] }).companies =
        some cn := by
      rw [mergeEdge_companies]
      exact hc
    simp only [hc, hc2]
    have hedge : ({ src := cid, type := "HAS_EVENT", dst := upsertId ["event", cid, et, per] } : Edge) ∈ (mergeEdge
        { g with events := alMerge (upsertId ["event", cid, et, per])
                             (eventCreate et per ed t1) (eventOnMatch et per ed t1) g.events }
        { src := cid, type := "HAS_EVENT", dst := upsertId ["event", cid, et, per] }).edges := by
      rw [mem_mergeEdge_edges]
      exact Or.inl rfl
    simp only [GraphStore.obs, mergeEdge_events, mergeEdge_companies, mergeEdge_sources,
      mergeEdge_claims, mergeEdge_signals]
    rw [mergeEdge_edges, if_pos hedge]
    simp only [GraphStore.mk.injEq, and_true, true_and]
    exact alMerge_twice_map_obs EventNode.obs _ _ _ _ _ _ (event_obs_h1 et per ed t1 t2)
      (event_obs_h2 et per ed t1 t2)

/-- Edge-list form of a relationship merge. -/
def addE (es : List Edge) (e : Edge) : List Edge := if e ∈ es then es else es ++ [e]

theorem mergeEdge_edges_addE (g : GraphStore) (e : Edge) :
    (mergeEdge g e).edges = addE g.edges e := by
  unfold mergeEdge addE
  split <;> simp_all

theorem addE_of_mem (es : List Edge) (e : Edge) (h : e ∈ es) : addE es e = es := by
  simp [addE, h]

theorem mem_addE (es : List Edge) (e e' : Edge) :
    e' ∈ addE es e ↔ e' = e ∨ e' ∈ es := by
  unfold addE
  split
  · rename_i h
    exact ⟨Or.inr, fun h' => h'.elim (fun hq => hq ▸ h) id⟩
  · simp [or_comm]

theorem mem_addE_self (es : List Edge) (e : Edge) : e ∈ addE es e :=
  (mem_addE es e e).mpr (Or.inl rfl)

theorem mem_addE_mono (es : List Edge) (e e' : Edge) (h : e' ∈ es) : e' ∈ addE es e :=
  (mem_addE es e e').mpr (Or.inr h)

theorem alMerge_twice_exact {V : Type} (k : String) (c1 c2 : V) (u1 u2 : V → V)
    (m : List (String × V)) (h1 : u2 c1 = c1) (h2 : ∀ o, u2 (u1 o) = u1 o) :
    alMerge k c2 u2 (alMerge k c1 u1 m) = alMerge k c1 u1 m := by
  have hget := alGet_alMerge_self k c1 u1 m
  have hstep : alMerge k c2 u2 (alMerge k c1 u1 m) =
      alSet k (u2 ((alGet k m).elim c1 u1)) (alMerge k c1 u1 m) := by
    unfold alMerge
    rw [show alGet k (match alGet k m with
        | none => m ++ [(k, c1)]
        | some old => alSet k (u1 old) m) = some ((alGet k m).elim c1 u1) from hget]
  rw [hstep]
  rw [show u2 ((alGet k m).elim c1 u1) = (alGet k m).elim c1 u1 by
    cases alGet k m with
    | none => exact h1
    | some o => exact h2 o]
  exact alSet_eq_of_get_eq _ _ _ hget

/-! Component behavior of each write operation. -/

theorem upsert_source_companies (g : GraphStore) (now : String) (doc : SourceDoc) :
    (upsert_source g now doc).1.companies = g.companies := rfl

theorem upsert_source_events (g : GraphStore) (now : String) (doc : SourceDoc) :
    (upsert_source g now doc).1.events = g.events := rfl

theorem upsert_source_claims (g : GraphStore) (now : String) (doc : SourceDoc) :
    (upsert_source g now doc).1.claims = g.claims := rfl

theorem upsert_source_signals (g : GraphStore) (now : String) (doc : SourceDoc) :
    (upsert_source g now doc).1.signals = g.signals := rfl

theorem upsert_source_edges (g : GraphStore) (now : String) (doc : SourceDoc) :
    (upsert_source g now doc).1.edges = g.edges := rfl

theorem upsert_source_sources (g : GraphStore) (now : String) (doc : SourceDoc) :
    (upsert_source g now doc).1.sources =
      alMerge doc.source_id (sourceCreate doc now) (sourceOnMatch doc now) g.sources := rfl

theorem upsert_claim_and_links_companies (g : GraphStore) (cid sid per : String) (c : Claim) :
    (upsert_claim_and_links g cid sid per c).companies = g.companies := by
  unfold upsert_claim_and_links
  rcases alGet cid g.companies <;> rcases alGet sid g.sources <;>
    simp [mergeEdge_companies]

theorem upsert_claim_and_links_events (g : GraphStore) (cid sid per : String) (c : Claim) :
    (upsert_claim_and_links g cid sid per c).events = g.events := by
  unfold upsert_claim_and_links
  rcases alGet cid g.companies <;> rcases alGet sid g.sources <;>
    simp [mergeEdge_events]

theorem upsert_claim_and_links_sources (g : GraphStore) (cid sid per : String) (c : Claim) :
    (upsert_claim_and_links g cid sid per c).sources = g.sources := by
  unfold upsert_claim_and_links
  rcases alGet cid g.companies <;> rcases alGet sid g.sources <;>
    simp [mergeEdge_sources]

theorem upsert_claim_and_links_signals (g : GraphStore) (cid sid per : String) (c : Claim) :
    (upsert_claim_and_links g cid sid per c).signals = g.signals := by
  unfold upsert_claim_and_links
  rcases alGet cid g.companies <;> rcases alGet sid g.sources <;>
    simp [mergeEdge_signals]

theorem upsert_claim_and_links_edges (g : GraphStore) (cid sid per : String) (c : Claim) :
    (upsert_claim_and_links g cid sid per c).edges =
      if (alGet cid g.companies).isSome ∧ (alGet sid g.sources).isSome then
        addE (addE g.edges
            { src := cid, type := "HAS_CLAIM", dst := c.claim_id, period := some per })
          { src := sid, type := "SUPPORTS", dst := c.claim_id }
      else g.edges := by
  unfold upsert_claim_and_links
  rcases alGet cid g.companies <;> rcases alGet sid g.sources <;>
    simp [mergeEdge_edges_addE]

theorem link_mentions_companies (g : GraphStore) (sid cid : String) :
    (link_source_mentions_company g sid cid).companies = g.companies := by
  unfold link_source_mentions_company
  rcases alGet sid g.sources <;> rcases alGet cid g.companies <;>
    simp [mergeEdge_companies]

theorem link_mentions_events (g : GraphStore) (sid cid : String) :
    (link_source_mentions_company g sid cid).events = g.events := by
  unfold link_source_mentions_company
  rcases alGet sid g.sources <;> rcases alGet cid g.companies <;>
    simp [mergeEdge_events]

theorem link_mentions_sources (g : GraphStore) (sid cid : String) :
    (link_source_mentions_company g sid cid).sources = g.sources := by
  unfold link_source_mentions_company
  rcases alGet sid g.sources <;> rcases alGet cid g.companies <;>
    simp [mergeEdge_sources]

theorem link_mentions_claims (g : GraphStore) (sid cid : String) :
    (link_source_mentions_company g sid cid).claims = g.claims := by
  unfold link_source_mentions_company
  rcases alGet sid g.sources <;> rcases alGet cid g.companies <;>
    simp [mergeEdge_claims]

theorem link_mentions_signals (g : GraphStore) (sid cid : String) :
    (link_source_mentions_company g sid cid).signals = g.signals := by
  unfold link_source_mentions_company
  rcases alGet sid g.sources <;> rcases alGet cid g.companies <;>
    simp [mergeEdge_signals]

theorem link_mentions_edges (g : GraphStore) (sid cid : String) :
    (link_source_mentions_company g sid cid).edges =
      if (alGet sid g.sources).isSome ∧ (alGet cid g.companies).isSome then
        addE g.edges { src := sid, type := "MENTIONS", dst := cid }
      else g.edges := by
  unfold link_source_mentions_company
  rcases alGet sid g.sources <;> rcases alGet cid g.companies <;>
    simp [mergeEdge_edges_addE]

theorem source_obs_h1 (doc : SourceDoc) (t1 t2 : String) :
    (sourceOnMatch doc t2 (sourceCreate doc t1)).obs = (sourceCreate doc t1).obs := by
  simp [sourceOnMatch, sourceCreate, SourceNode.obs, coalesce_self]

theorem source_obs_h2 (doc : SourceDoc) (t1 t2 : String) (o : SourceNode) :
    (sourceOnMatch doc t2 (sourceOnMatch doc t1 o)).obs = (sourceOnMatch doc t1 o).obs := by
  simp [sourceOnMatch, SourceNode.obs, coalesce_coalesce]

theorem merge_idem_source (g : GraphStore) (t1 t2 : String) (doc : SourceDoc) :
    ((upsert_source (upsert_source g t1 doc).1 t2 doc).1).obs =
      ((upsert_source g t1 doc).1).obs := by
  simp only [upsert_source, GraphStore.obs]
  simp only [GraphStore.mk.injEq, and_true, true_and]
  exact alMerge_twice_map_obs SourceNode.obs _ _ _ _ _ _ (source_obs_h1 doc t1 t2)
    (source_obs_h2 doc t1 t2)

theorem graphStore_ext (a b : GraphStore) (h1 : a.companies = b.companies)
    (h2 : a.events = b.events) (h3 : a.sources = b.sources) (h4 : a.claims = b.claims)
    (h5 : a.signals = b.signals) (h6 : a.edges = b.edges) : a = b := by
  cases a
  cases b
  simp_all

theorem addE_replay (es : List Edge) (e1 e2 : Edge) :
    addE (addE (addE (addE es e1) e2) e1) e2 = addE (addE es e1) e2 := by
  rw [addE_of_mem _ e1 (mem_addE_mono _ _ _ (mem_addE_self _ _)),
      addE_of_mem _ e2 (mem_addE_self _ _)]

theorem merge_idem_claim_and_links (g : GraphStore) (cid sid per : String) (c : Claim) :
    upsert_claim_and_links (upsert_claim_and_links g cid sid per c) cid sid per c =
      upsert_claim_and_links g cid sid per c := by
  refine graphStore_ext _ _ ?_ ?_ ?_ ?_ ?_ ?_
  · rw [upsert_claim_and_links_companies]
  · rw [upsert_claim_and_links_events]
  · rw [upsert_claim_and_links_sources]
  · rw [upsert_claim_and_links_claims, upsert_claim_and_links_claims]
    exact alMerge_twice_exact _ _ _ _ _ _ rfl (fun o => rfl)
  · rw [upsert_claim_and_links_signals]
  · rw [upsert_claim_and_links_edges, upsert_claim_and_links_companies,
      upsert_claim_and_links_sources]
    split
    · rename_i hpres
      rw [upsert_claim_and_links_edges g, if_pos hpres]
      exact addE_replay _ _ _
    · rfl

theorem addE_replay3 (es : List Edge) (e1 e2 e3 : Edge) :
    addE (addE (addE (addE (addE (addE es e1) e2) e3) e1) e2) e3 =
      addE (addE (addE es e1) e2) e3 := by
  rw [addE_of_mem _ e1 (mem_addE_mono _ _ _ (mem_addE_mono _ _ _ (mem_addE_self _ _))),
      addE_of_mem _ e2 (mem_addE_mono _ _ _ (mem_addE_self _ _)),
      addE_of_mem _ e3 (mem_addE_self _ _)]

theorem upsert_claim_companies (g : GraphStore) (now cid eid sid tx ct : String) (cf : Rat) :
    (upsert_claim g now cid eid sid tx ct cf).1.companies = g.companies := by
  unfold upsert_claim
  rcases alGet cid g.companies <;> rcases alGet eid g.events <;> rcases alGet sid g.sources <;>
    simp [mergeEdge_companies]

theorem upsert_claim_events (g : GraphStore) (now cid eid sid tx ct : String) (cf : Rat) :
    (upsert_claim g now cid eid sid tx ct cf).1.events = g.events := by
  unfold upsert_claim
  rcases alGet cid g.companies <;> rcases alGet eid g.events <;> rcases alGet sid g.sources <;>
    simp [mergeEdge_events]

theorem upsert_claim_sources (g : GraphStore) (now cid eid sid tx ct : String) (cf : Rat) :
    (upsert_claim g now cid eid sid tx ct cf).1.sources = g.sources := by
  unfold upsert_claim
  rcases alGet cid g.companies <;> rcases alGet eid g.events <;> rcases alGet sid g.sources <;>
    simp [mergeEdge_sources]

theorem upsert_claim_signals (g : GraphStore) (now cid eid sid tx ct : String) (cf : Rat) :
    (upsert_claim g now cid eid sid tx ct cf).1.signals = g.signals := by
  unfold upsert_claim
  rcases alGet cid g.companies <;> rcases alGet eid g.events <;> rcases alGet sid g.sources <;>
    simp [mergeEdge_signals]

theorem upsert_claim_claims (g : GraphStore) (now cid eid sid tx ct : String) (cf : Rat) :
    (upsert_claim g now cid eid sid tx ct cf).1.claims =
      if (alGet cid g.companies).isSome ∧ (alGet eid g.events).isSome ∧
          (alGet sid g.sources).isSome then
        alMerge (upsertId ["claim", cid, eid, pyLower tx]) (claimCreate tx ct cf now)
          (claimOnMatch tx ct cf now) g.claims
      else g.claims := by
  unfold upsert_claim
  rcases alGet cid g.companies <;> rcases alGet eid g.events <;> rcases alGet sid g.sources <;>
    simp [mergeEdge_claims]

theorem upsert_claim_edges (g : GraphStore) (now cid eid sid tx ct : String) (cf : Rat) :
    (upsert_claim g now cid eid sid tx ct cf).1.edges =
      if (alGet cid g.companies).isSome ∧ (alGet eid g.events).isSome ∧
          (alGet sid g.sources).isSome then
        addE (addE (addE g.edges
            { src := eid, type := "HAS_CLAIM", dst := upsertId ["claim", cid, eid, pyLower tx] })
            { src := sid, type := "SUPPORTS", dst := upsertId ["claim", cid, eid, pyLower tx] })
          { src := upsertId ["claim", cid, eid, pyLower tx], type := "ABOUT", dst := cid }
      else g.edges := by
  unfold upsert_claim
  rcases alGet cid g.companies <;> rcases alGet eid g.events <;> rcases alGet sid g.sources <;>
    simp [mergeEdge_edges_addE]

theorem claim_obs_h1 (tx ct : String) (cf : Rat) (t1 t2 : String) :
    (claimOnMatch tx ct cf t2 (claimCreate tx ct cf t1)).obs =
      (claimCreate tx ct cf t1).obs := by
  simp [claimOnMatch, claimCreate, ClaimNode.obs]

theorem claim_obs_h2 (tx ct : String) (cf : Rat) (t1 t2 : String) (o : ClaimNode) :
    (claimOnMatch tx ct cf t2 (claimOnMatch tx ct cf t1 o)).obs =
      (claimOnMatch tx ct cf t1 o).obs := by
  simp [claimOnMatch, ClaimNode.obs]

theorem merge_idem_claim (g : GraphStore) (t1 t2 cid eid sid tx ct : String) (cf : Rat) :
    ((upsert_claim (upsert_claim g t1 cid eid sid tx ct cf).1 t2 cid eid sid tx ct cf).1).obs =
      ((upsert_claim g t1 cid eid sid tx ct cf).1).obs := by
  have hcomp := upsert_claim_companies g t1 cid eid sid tx ct cf
  have hev := upsert_claim_events g t1 cid eid sid tx ct cf
  have hsrc := upsert_claim_sources g t1 cid eid sid tx ct cf
  refine graphStore_ext _ _ ?_ ?_ ?_ ?_ ?_ ?_ <;> simp only [GraphStore.obs]
  · rw [upsert_claim_companies, upsert_claim_companies]
  · rw [upsert_claim_events, upsert_claim_events]
  · rw [upsert_claim_sources, upsert_claim_sources]
  · rw [upsert_claim_claims, hcomp, hev, hsrc]
    split
    · rename_i hpres
      rw [upsert_claim_claims g, if_pos hpres]
      exact alMerge_twice_map_obs ClaimNode.obs _ _ _ _ _ _ (claim_obs_h1 tx ct cf t1 t2)
        (claim_obs_h2 tx ct cf t1 t2)
    · rfl
  · rw [upsert_claim_signals, upsert_claim_signals]
  · rw [upsert_claim_edges, hcomp, hev, hsrc]
    split
    · rename_i hpres
      rw [upsert_claim_edges g, if_pos hpres]
      exact addE_replay3 _ _ _ _
    · rfl

theorem upsert_signal_companies (g : GraphStore) (now cid eid st : String) (sc : Rat)
    (vol : Int) (w : String) (ca : Option String) :
    (upsert_signal g now cid eid st sc vol w ca).1.companies = g.companies := by
  unfold upsert_signal
  rcases alGet cid g.companies <;> rcases alGet eid g.events <;> simp [mergeEdge_companies]

theorem upsert_signal_events (g : GraphStore) (now cid eid st : String) (sc : Rat)
    (vol : Int) (w : String) (ca : Option String) :
    (upsert_signal g now cid eid st sc vol w ca).1.events = g.events := by
  unfold upsert_signal
  rcases alGet cid g.companies <;> rcases alGet eid g.events <;> simp [mergeEdge_events]

theorem upsert_signal_sources (g : GraphStore) (now cid eid st : String) (sc : Rat)
    (vol : Int) (w : String) (ca : Option String) :
    (upsert_signal g now cid eid st sc vol w ca).1.sources = g.sources := by
  unfold upsert_signal
  rcases alGet cid g.companies <;> rcases alGet eid g.events <;> simp [mergeEdge_sources]

theorem upsert_signal_claims (g : GraphStore) (now cid eid st : String) (sc : Rat)
    (vol : Int) (w : String) (ca : Option String) :
    (upsert_signal g now cid eid st sc vol w ca).1.claims = g.claims := by
  unfold upsert_signal
  rcases alGet cid g.companies <;> rcases alGet eid g.events <;> simp [mergeEdge_claims]

theorem upsert_signal_signals (g : GraphStore) (now cid eid st : String) (sc : Rat)
    (vol : Int) (w : String) (ca : Option String) :
    (upsert_signal g now cid eid st sc vol w ca).1.signals =
      if (alGet cid g.companies).isSome ∧ (alGet eid g.events).isSome then
        alMerge (upsertId ["signal", cid, eid, st, w])
          (signalCreate st sc vol w (ca.getD now)) (signalOnMatch sc vol (ca.getD now))
          g.signals
      else g.signals := by
  unfold upsert_signal
  rcases alGet cid g.companies <;> rcases alGet eid g.events <;> simp [mergeEdge_signals]

theorem upsert_signal_edges (g : GraphStore) (now cid eid st : String) (sc : Rat)
    (vol : Int) (w : String) (ca : Option String) :
    (upsert_signal g now cid eid st sc vol w ca).1.edges =
      if (alGet cid g.companies).isSome ∧ (alGet eid g.events).isSome then
        addE (addE g.edges
            { src := upsertId ["signal", cid, eid, st, w], type := "ABOUT", dst := cid })
          { src := upsertId ["signal", cid, eid, st, w], type := "IN_WINDOW", dst := eid }
      else g.edges := by
  unfold upsert_signal
  rcases alGet cid g.companies <;> rcases alGet eid g.events <;> simp [mergeEdge_edges_addE]

theorem merge_idem_signal (g : GraphStore) (t1 t2 cid eid st : String) (sc : Rat)
    (vol : Int) (w ca : String) :
    (upsert_signal (upsert_signal g t1 cid eid st sc vol w (some ca)).1
        t2 cid eid st sc vol w (some ca)).1 =
      (upsert_signal g t1 cid eid st sc vol w (some ca)).1 := by
  have hcomp := upsert_signal_companies g t1 cid eid st sc vol w (some ca)
  have hev := upsert_signal_events g t1 cid eid st sc vol w (some ca)
  refine graphStore_ext _ _ ?_ ?_ ?_ ?_ ?_ ?_
  · rw [upsert_signal_companies]
  · rw [upsert_signal_events]
  · rw [upsert_signal_sources, upsert_signal_sources]
  · rw [upsert_signal_claims, upsert_signal_claims]
  · rw [upsert_signal_signals, hcomp, hev]
    split
    · rename_i hpres
      rw [upsert_signal_signals g, if_pos hpres]
      exact alMerge_twice_exact _ _ _ _ _ _ rfl (fun o => rfl)
    · rfl
  · rw [upsert_signal_edges, hcomp, hev]
    split
    · rename_i hpres
      rw [upsert_signal_edges g, if_pos hpres]
      exact addE_replay _ _ _
    · rfl

theorem merge_idem_edge (g : GraphStore) (e : Edge) :
    mergeEdge (mergeEdge g e) e = mergeEdge g e :=
  mergeEdge_of_mem _ _ ((mem_mergeEdge_edges g e e).mpr (Or.inl rfl))

/-! ## C3 machinery: the refresh run writes the same identities every time -/

def srcKeys (g : GraphStore) : List String := g.sources.map Prod.fst

def claimKeys (g : GraphStore) : List String := g.claims.map Prod.fst

/-- The claim id that `claimOfOut` induces, read off the validated output:
independent of the source document. -/
def outClaimId (company_name period : String) (c : ClaimOut) : String :=
  stable_id_from_text [company_name, period, c.claim_type, c.timeframe.getD "", c.text]

theorem claimOfOut_claim_id (company_name period : String) (doc : SourceDoc) (c : ClaimOut) :
    (claimOfOut company_name period doc c).claim_id = outClaimId company_name period c := rfl

theorem extract_claims_eq (llm : Except String (List RawClaim)) (cname per : String)
    (doc : SourceDoc) :
    extract_claims_from_source_openai llm cname per doc =
      (llm.bind validateClaimsPayload).map (List.map (claimOfOut cname per doc)) := by
  unfold extract_claims_from_source_openai
  cases llm with
  | error e => rfl
  | ok raws =>
    simp only [bind, Except.bind]
    cases validateClaimsPayload raws with
    | error e => rfl
    | ok payload => rfl

theorem applyClaims_companies (cid sid per : String) (claims : List Claim) (g : GraphStore) :
    (applyClaims cid sid per claims g).companies = g.companies := by
  induction claims generalizing g with
  | nil => rfl
  | cons c cs ih => rw [applyClaims, ih, upsert_claim_and_links_companies]

theorem applyClaims_events (cid sid per : String) (claims : List Claim) (g : GraphStore) :
    (applyClaims cid sid per claims g).events = g.events := by
  induction claims generalizing g with
  | nil => rfl
  | cons c cs ih => rw [applyClaims, ih, upsert_claim_and_links_events]

theorem applyClaims_sources (cid sid per : String) (claims : List Claim) (g : GraphStore) :
    (applyClaims cid sid per claims g).sources = g.sources := by
  induction claims generalizing g with
  | nil => rfl
  | cons c cs ih => rw [applyClaims, ih, upsert_claim_and_links_sources]

theorem applyClaims_signals (cid sid per : String) (claims : List Claim) (g : GraphStore) :
    (applyClaims cid sid per claims g).signals = g.signals := by
  induction claims generalizing g with
  | nil => rfl
  | cons c cs ih => rw [applyClaims, ih, upsert_claim_and_links_signals]

theorem applyClaims_claimKeys_mono (cid sid per : String) (claims : List Claim)
    (g : GraphStore) (x : String) (h : x ∈ claimKeys g) :
    x ∈ claimKeys (applyClaims cid sid per claims g) := by
  induction claims generalizing g with
  | nil => exact h
  | cons c cs ih =>
    rw [applyClaims]
    refine ih _ ?_
    unfold claimKeys
    rw [upsert_claim_and_links_claims]
    exact (mem_alMerge_map_fst _ _ _ _ _).mpr (Or.inr h)

theorem applyClaims_edges_mono (cid sid per : String) (claims : List Claim)
    (g : GraphStore) (e : Edge) (h : e ∈ g.edges) :
    e ∈ (applyClaims cid sid per claims g).edges := by
  induction claims generalizing g with
  | nil => exact h
  | cons c cs ih =>
    rw [applyClaims]
    refine ih _ ?_
    rw [upsert_claim_and_links_edges]
    split
    · exact mem_addE_mono _ _ _ (mem_addE_mono _ _ _ h)
    · exact h

theorem mem_applyClaims_claimKeys (cid sid per : String) (claims : List Claim)
    (g : GraphStore) (c : Claim) (hc : c ∈ claims) :
    c.claim_id ∈ claimKeys (applyClaims cid sid per claims g) := by
  induction claims generalizing g with
  | nil => simp at hc
  | cons c0 cs ih =>
    rw [applyClaims]
    rcases List.mem_cons.mp hc with rfl | hc2
    · refine applyClaims_claimKeys_mono _ _ _ _ _ _ ?_
      unfold claimKeys
      rw [upsert_claim_and_links_claims]
      exact (mem_alMerge_map_fst _ _ _ _ _).mpr (Or.inl rfl)
    · exact ih _ hc2

theorem mem_applyClaims_edges (cid sid per : String) (claims : List Claim)
    (g : GraphStore) (c : Claim) (hc : c ∈ claims)
    (hcomp : (alGet cid g.companies).isSome) (hsrc : (alGet sid g.sources).isSome) :
    ({ src := cid, type := "HAS_CLAIM", dst := c.claim_id, period := some per } : Edge) ∈
        (applyClaims cid sid per claims g).edges ∧
      ({ src := sid, type := "SUPPORTS", dst := c.claim_id } : Edge) ∈
        (applyClaims cid sid per claims g).edges := by
  induction claims generalizing g with
  | nil => simp at hc
  | cons c0 cs ih =>
    rw [applyClaims]
    rcases List.mem_cons.mp hc with rfl | hc2
    · constructor
      · refine applyClaims_edges_mono _ _ _ _ _ _ ?_
        rw [upsert_claim_and_links_edges, if_pos ⟨hcomp, hsrc⟩]
        exact mem_addE_mono _ _ _ (mem_addE_self _ _)
      · refine applyClaims_edges_mono _ _ _ _ _ _ ?_
        rw [upsert_claim_and_links_edges, if_pos ⟨hcomp, hsrc⟩]
        exact mem_addE_self _ _
    · refine ih _ hc2 ?_ ?_
      · rw [upsert_claim_and_links_companies]
        exact hcomp
      · rw [upsert_claim_and_links_sources]
        exact hsrc

theorem applyClaims_replay (cid sid per : String) (claims : List Claim) (g : GraphStore)
    (hids : ∀ c ∈ claims, c.claim_id ∈ claimKeys g)
    (hedges : (alGet cid g.companies).isSome → (alGet sid g.sources).isSome →
      ∀ c ∈ claims,
        ({ src := cid, type := "HAS_CLAIM", dst := c.claim_id, period := some per } : Edge) ∈
            g.edges ∧
          ({ src := sid, type := "SUPPORTS", dst := c.claim_id } : Edge) ∈ g.edges) :
    claimKeys (applyClaims cid sid per claims g) = claimKeys g ∧
      (applyClaims cid sid per claims g).edges = g.edges := by
  induction claims generalizing g with
  | nil => exact ⟨rfl, rfl⟩
  | cons c0 cs ih =>
    rw [applyClaims]
    have hpres : (alGet c0.claim_id g.claims).isSome := by
      rw [alGet_isSome_iff_mem_map_fst]
      exact hids c0 (by simp)
    have hkeys : claimKeys (upsert_claim_and_links g cid sid per c0) = claimKeys g := by
      unfold claimKeys
      rw [upsert_claim_and_links_claims, alMerge_map_fst, if_pos hpres]
    have hedges1 : (upsert_claim_and_links g cid sid per c0).edges = g.edges := by
      rw [upsert_claim_and_links_edges]
      split
      · rename_i hp
        rcases hedges hp.1 hp.2 c0 (by simp) with ⟨h1, h2⟩
        rw [addE_of_mem _ _ h1, addE_of_mem _ _ h2]
      · rfl
    have := ih (upsert_claim_and_links g cid sid per c0)
      (fun c hc => by rw [hkeys]; exact hids c (List.mem_cons_of_mem _ hc))
      (fun hc hs c hcm => by
        rw [upsert_claim_and_links_companies] at hc
        rw [upsert_claim_and_links_sources] at hs
        rw [hedges1]
        exact hedges hc hs c (List.mem_cons_of_mem _ hcm))
    rw [this.1, this.2, hkeys, hedges1]
    exact ⟨rfl, rfl⟩

/-- The node identities and relationships a refresh run writes, read off the
environment alone (they do not depend on the store or the wall clock); the
recursion stops where the run's re-raise stops it.  `companyPresent` is
whether the run's company id is in the store — constant during a run, since
the run never writes companies. -/
structure RunWrites where
  srcIds : List String
  claimIds : List String
  writtenEdges : List Edge
deriving Repr

def runWrites (env : RefreshEnv) (company_id company_name period : String)
    (companyPresent : Bool) : List SerpResult → RunWrites
  | [] => { srcIds := [], claimIds := [], writtenEdges := [] }
  | r :: rest =>
    match env.fetchMd r.url with
    | .error _ => { srcIds := [], claimIds := [], writtenEdges := [] }
    | .ok _ =>
      match (env.llm r.url).bind validateClaimsPayload with
      | .error _ =>
        { srcIds := [stable_id_from_url r.url], claimIds := [], writtenEdges := [] }
      | .ok payload =>
        let sid := stable_id_from_url r.url
        let w := runWrites env company_id company_name period companyPresent rest
        { srcIds := sid :: w.srcIds
          claimIds := payload.map (outClaimId company_name period) ++ w.claimIds
          writtenEdges :=
            (if companyPresent then
              payload.map (fun c0 =>
                ({ src := company_id, type := "HAS_CLAIM",
                   dst := outClaimId company_name period c0, period := some period } : Edge)) ++
              payload.map (fun c0 =>
                ({ src := sid, type := "SUPPORTS",
                   dst := outClaimId company_name period c0 } : Edge)) ++
              [{ src := sid, type := "MENTIONS", dst := company_id }]
            else []) ++ w.writtenEdges }

theorem refreshGo_companies (env : RefreshEnv)
    (now company_id company_name period serp_query : String) :
    ∀ (rs : List SerpResult) (g : GraphStore) (d u : Nat) (errs : List ErrEntry)
      (tr : List ExtCall),
      (refreshGo env now company_id company_name period serp_query
        rs g d u errs tr).2.1.companies = g.companies := by
  intro rs
  induction rs with
  | nil => intro g d u errs tr; rfl
  | cons r rest ih =>
    intro g d u errs tr
    simp only [refreshGo]
    split
    · rfl
    · split
      · exact upsert_source_companies _ _ _
      · rw [ih]
        rw [link_mentions_companies, applyClaims_companies, upsert_source_companies]

theorem refreshGo_events (env : RefreshEnv)
    (now company_id company_name period serp_query : String) :
    ∀ (rs : List SerpResult) (g : GraphStore) (d u : Nat) (errs : List ErrEntry)
      (tr : List ExtCall),
      (refreshGo env now company_id company_name period serp_query
        rs g d u errs tr).2.1.events = g.events := by
  intro rs
  induction rs with
  | nil => intro g d u errs tr; rfl
  | cons r rest ih =>
    intro g d u errs tr
    simp only [refreshGo]
    split
    · rfl
    · split
      · exact upsert_source_events _ _ _
      · rw [ih]
        rw [link_mentions_events, applyClaims_events, upsert_source_events]

theorem refreshGo_signals (env : RefreshEnv)
    (now company_id company_name period serp_query : String) :
    ∀ (rs : List SerpResult) (g : GraphStore) (d u : Nat) (errs : List ErrEntry)
      (tr : List ExtCall),
      (refreshGo env now company_id company_name period serp_query
        rs g d u errs tr).2.1.signals = g.signals := by
  intro rs
  induction rs with
  | nil => intro g d u errs tr; rfl
  | cons r rest ih =>
    intro g d u errs tr
    simp only [refreshGo]
    split
    · rfl
    · split
      · exact upsert_source_signals _ _ _
      · rw [ih]
        rw [link_mentions_signals, applyClaims_signals, upsert_source_signals]

theorem refreshGo_mono (env : RefreshEnv)
    (now company_id company_name period serp_query : String) :
    ∀ (rs : List SerpResult) (g : GraphStore) (d u : Nat) (errs : List ErrEntry)
      (tr : List ExtCall),
      (∀ x, x ∈ srcKeys g → x ∈ srcKeys (refreshGo env now company_id company_name period
        serp_query rs g d u errs tr).2.1) ∧
      (∀ x, x ∈ claimKeys g → x ∈ claimKeys (refreshGo env now company_id company_name period
        serp_query rs g d u errs tr).2.1) ∧
      (∀ e, e ∈ g.edges → e ∈ (refreshGo env now company_id company_name period
        serp_query rs g d u errs tr).2.1.edges) := by
  intro rs
  induction rs with
  | nil => intro g d u errs tr; exact ⟨fun x h => h, fun x h => h, fun e h => h⟩
  | cons r rest ih =>
    intro g d u errs tr
    simp only [refreshGo]
    split
    · exact ⟨fun x h => h, fun x h => h, fun e h => h⟩
    · split
      · refine ⟨?_, fun x h => h, fun e h => h⟩
        intro x h
        unfold srcKeys
        rw [upsert_source_sources]
        exact (mem_alMerge_map_fst _ _ _ _ _).mpr (Or.inr h)
      · rename_i claims heq
        refine ⟨?_, ?_, ?_⟩
        · intro x h
          refine (ih _ _ _ _ _).1 x ?_
          unfold srcKeys
          rw [link_mentions_sources, applyClaims_sources, upsert_source_sources]
          exact (mem_alMerge_map_fst _ _ _ _ _).mpr (Or.inr h)
        · intro x h
          refine (ih _ _ _ _ _).2.1 x ?_
          unfold claimKeys
          rw [link_mentions_claims]
          refine applyClaims_claimKeys_mono _ _ _ _ _ x ?_
          unfold claimKeys
          rw [upsert_source_claims]
          exact h
        · intro e h
          refine (ih _ _ _ _ _).2.2 e ?_
          rw [link_mentions_edges]
          split
          · refine mem_addE_mono _ _ _ ?_
            refine applyClaims_edges_mono _ _ _ _ _ e ?_
            rw [upsert_source_edges]
            exact h
          · refine applyClaims_edges_mono _ _ _ _ _ e ?_
            rw [upsert_source_edges]
            exact h

theorem alGet_alMerge_isSome {V : Type} (k : String) (c : V) (u : V → V)
    (m : List (String × V)) : (alGet k (alMerge k c u m)).isSome := by
  rw [alGet_alMerge_self]
  rfl

theorem refreshGo_writes_present (env : RefreshEnv)
    (now company_id company_name period serp_query : String) :
    ∀ (rs : List SerpResult) (g : GraphStore) (d u : Nat) (errs : List ErrEntry)
      (tr : List ExtCall),
      (∀ x ∈ (runWrites env company_id company_name period
          ((alGet company_id g.companies).isSome) rs).srcIds,
        x ∈ srcKeys (refreshGo env now company_id company_name period serp_query
          rs g d u errs tr).2.1) ∧
      (∀ x ∈ (runWrites env company_id company_name period
          ((alGet company_id g.companies).isSome) rs).claimIds,
        x ∈ claimKeys (refreshGo env now company_id company_name period serp_query
          rs g d u errs tr).2.1) ∧
      (∀ e ∈ (runWrites env company_id company_name period
          ((alGet company_id g.companies).isSome) rs).writtenEdges,
        e ∈ (refreshGo env now company_id company_name period serp_query
          rs g d u errs tr).2.1.edges) := by
  intro rs
  induction rs with
  | nil =>
    intro g d u errs tr
    simp [runWrites]
  | cons r rest ih =>
    intro g d u errs tr
    cases hf : env.fetchMd r.url with
    | error e =>
      simp [refreshGo, runWrites, hf]
    | ok md =>
      simp only [refreshGo, runWrites, hf]
      rw [extract_claims_eq]
      cases hb : (env.llm r.url).bind validateClaimsPayload with
      | error e =>
        simp only [hb, Except.map]
        refine ⟨?_, by simp, by simp⟩
        intro x hx
        rcases List.mem_singleton.mp hx with rfl
        unfold srcKeys
        rw [upsert_source_sources]
        exact (mem_alMerge_map_fst _ _ _ _ _).mpr (Or.inl rfl)
      | ok payload =>
        simp only [hb, Except.map]
        have hcomp2 : ∀ b : Bool, (alGet company_id g.companies).isSome = b →
            (alGet company_id
              (upsert_source g now (serpDoc now serp_query r md)).1.companies).isSome = b := by
          intro b hbq
          rw [upsert_source_companies]
          exact hbq
        have hsrc2 : (alGet (stable_id_from_url r.url)
            (upsert_source g now (serpDoc now serp_query r md)).1.sources).isSome := by
          rw [upsert_source_sources]
          exact alGet_alMerge_isSome _ _ _ _
        refine ⟨?_, ?_, ?_⟩
        · intro x hx
          rcases List.mem_cons.mp hx with rfl | hx2
          · refine (refreshGo_mono env now company_id company_name period serp_query
              rest _ _ _ _ _).1 _ ?_
            unfold srcKeys
            rw [link_mentions_sources, applyClaims_sources, upsert_source_sources]
            exact (mem_alMerge_map_fst _ _ _ _ _).mpr (Or.inl rfl)
          · refine (ih _ _ _ _ _).1 x ?_
            rw [link_mentions_companies, applyClaims_companies, upsert_source_companies]
            exact hx2
        · intro x hx
          rcases List.mem_append.mp hx with hx1 | hx2
          · rcases List.mem_map.mp hx1 with ⟨c0, hc0, rfl⟩
            refine (refreshGo_mono env now company_id company_name period serp_query
              rest _ _ _ _ _).2.1 _ ?_
            unfold claimKeys
            rw [link_mentions_claims]
            exact mem_applyClaims_claimKeys company_id _ period
              (List.map (claimOfOut company_name period (serpDoc now serp_query r md)) payload)
              _ (claimOfOut company_name period (serpDoc now serp_query r md) c0)
              (List.mem_map_of_mem _ hc0)
          · refine (ih _ _ _ _ _).2.1 x ?_
            rw [link_mentions_companies, applyClaims_companies, upsert_source_companies]
            exact hx2
        · intro e he
          rcases List.mem_append.mp he with he1 | he2
          · cases hp : (alGet company_id g.companies).isSome with
            | false =>
              rw [hp] at he1
              simp at he1
            | true =>
              rw [hp] at he1
              simp only [if_pos] at he1
              rcases List.mem_append.mp he1 with he3 | he4
              · rcases List.mem_append.mp he3 with he5 | he6
                · rcases List.mem_map.mp he5 with ⟨c0, hc0, rfl⟩
                  refine (refreshGo_mono env now company_id company_name period serp_query
                    rest _ _ _ _ _).2.2 _ ?_
                  rw [link_mentions_edges]
                  have hmem := (mem_applyClaims_edges company_id (stable_id_from_url r.url)
                    period (List.map (claimOfOut company_name period
                      (serpDoc now serp_query r md)) payload)
                    (upsert_source g now (serpDoc now serp_query r md)).1
                    (claimOfOut company_name period (serpDoc now serp_query r md) c0)
                    (List.mem_map_of_mem _ hc0) (hcomp2 true hp) hsrc2).1
                  split
                  · exact mem_addE_mono _ _ _ hmem
                  · exact hmem
                · rcases List.mem_map.mp he6 with ⟨c0, hc0, rfl⟩
                  refine (refreshGo_mono env now company_id company_name period serp_query
                    rest _ _ _ _ _).2.2 _ ?_
                  rw [link_mentions_edges]
                  have hmem := (mem_applyClaims_edges company_id (stable_id_from_url r.url)
                    period (List.map (claimOfOut company_name period
                      (serpDoc now serp_query r md)) payload)
                    (upsert_source g now (serpDoc now serp_query r md)).1
                    (claimOfOut company_name period (serpDoc now serp_query r md) c0)
                    (List.mem_map_of_mem _ hc0) (hcomp2 true hp) hsrc2).2
                  split
                  · exact mem_addE_mono _ _ _ hmem
                  · exact hmem
              · rcases List.mem_singleton.mp he4 with rfl
                refine (refreshGo_mono env now company_id company_name period serp_query
                  rest _ _ _ _ _).2.2 _ ?_
                rw [link_mentions_edges, if_pos]
                · exact mem_addE_self _ _
                · constructor
                  · rw [applyClaims_sources]
                    exact hsrc2
                  · rw [applyClaims_companies]
                    exact hcomp2 true hp
          · refine (ih _ _ _ _ _).2.2 e ?_
            rw [link_mentions_companies, applyClaims_companies, upsert_source_companies]
            exact he2

theorem refreshGo_replay (env : RefreshEnv)
    (now company_id company_name period serp_query : String) :
    ∀ (rs : List SerpResult) (g : GraphStore) (d u : Nat) (errs : List ErrEntry)
      (tr : List ExtCall),
      (∀ x ∈ (runWrites env company_id company_name period
          ((alGet company_id g.companies).isSome) rs).srcIds, x ∈ srcKeys g) →
      (∀ x ∈ (runWrites env company_id company_name period
          ((alGet company_id g.companies).isSome) rs).claimIds, x ∈ claimKeys g) →
      (∀ e ∈ (runWrites env company_id company_name period
          ((alGet company_id g.companies).isSome) rs).writtenEdges, e ∈ g.edges) →
      srcKeys (refreshGo env now company_id company_name period serp_query
          rs g d u errs tr).2.1 = srcKeys g ∧
        claimKeys (refreshGo env now company_id company_name period serp_query
          rs g d u errs tr).2.1 = claimKeys g ∧
        (refreshGo env now company_id company_name period serp_query
          rs g d u errs tr).2.1.edges = g.edges := by
  intro rs
  induction rs with
  | nil =>
    intro g d u errs tr h1 h2 h3
    exact ⟨rfl, rfl, rfl⟩
  | cons r rest ih =>
    intro g d u errs tr h1 h2 h3
    cases hf : env.fetchMd r.url with
    | error e =>
      simp [refreshGo, hf]
    | ok md =>
      simp only [refreshGo, hf]
      rw [extract_claims_eq]
      cases hb : (env.llm r.url).bind validateClaimsPayload with
      | error e =>
        simp only [runWrites, hf, hb] at h1
        simp only [hb, Except.map]
        have hsome : (alGet (serpDoc now serp_query r md).source_id g.sources).isSome := by
          rw [alGet_isSome_iff_mem_map_fst]
          exact h1 _ (List.mem_singleton.mpr rfl)
        refine ⟨?_, ?_, ?_⟩
        · unfold srcKeys
          rw [upsert_source_sources, alMerge_map_fst, if_pos hsome]
        · unfold claimKeys
          rw [upsert_source_claims]
        · rw [upsert_source_edges]
      | ok payload =>
        simp only [runWrites, hf, hb] at h1 h2 h3
        simp only [hb, Except.map]
        have hsome : (alGet (serpDoc now serp_query r md).source_id g.sources).isSome := by
          rw [alGet_isSome_iff_mem_map_fst]
          exact h1 _ (List.mem_cons.mpr (Or.inl rfl))
        have E1src : srcKeys (upsert_source g now (serpDoc now serp_query r md)).1 =
            srcKeys g := by
          unfold srcKeys
          rw [upsert_source_sources, alMerge_map_fst, if_pos hsome]
        have E1cl : claimKeys (upsert_source g now (serpDoc now serp_query r md)).1 =
            claimKeys g := by
          unfold claimKeys
          rw [upsert_source_claims]
        have E1e : (upsert_source g now (serpDoc now serp_query r md)).1.edges =
            g.edges := upsert_source_edges _ _ _
        have E1comp : (upsert_source g now (serpDoc now serp_query r md)).1.companies =
            g.companies := upsert_source_companies _ _ _
        have E1srcs : (upsert_source g now (serpDoc now serp_query r md)).1.sources =
            alMerge (serpDoc now serp_query r md).source_id
              (sourceCreate (serpDoc now serp_query r md) now)
              (sourceOnMatch (serpDoc now serp_query r md) now) g.sources :=
          upsert_source_sources _ _ _
        have hrep := applyClaims_replay company_id (stable_id_from_url r.url) period
          (List.map (claimOfOut company_name period (serpDoc now serp_query r md)) payload)
          (upsert_source g now (serpDoc now serp_query r md)).1
          (by
            intro c hc
            rcases List.mem_map.mp hc with ⟨c0, hc0, rfl⟩
            rw [E1cl]
            exact h2 _ (List.mem_append.mpr (Or.inl (List.mem_map_of_mem _ hc0))))
          (by
            intro hcp hsp c hc
            rw [E1comp] at hcp
            rcases List.mem_map.mp hc with ⟨c0, hc0, rfl⟩
            rw [upsert_source_edges]
            constructor
            · refine h3 _ (List.mem_append.mpr (Or.inl ?_))
              rw [if_pos hcp]
              exact List.mem_append.mpr (Or.inl (List.mem_append.mpr
                (Or.inl (List.mem_map_of_mem _ hc0))))
            · refine h3 _ (List.mem_append.mpr (Or.inl ?_))
              rw [if_pos hcp]
              exact List.mem_append.mpr (Or.inl (List.mem_append.mpr
                (Or.inr (List.mem_map_of_mem _ hc0)))))
        have E2cl := hrep.1
        have E2e := hrep.2
        have E2src : (applyClaims company_id (stable_id_from_url r.url) period
            (List.map (claimOfOut company_name period (serpDoc now serp_query r md)) payload)
            (upsert_source g now (serpDoc now serp_query r md)).1).sources =
            (upsert_source g now (serpDoc now serp_query r md)).1.sources :=
          applyClaims_sources _ _ _ _ _
        have E2comp : (applyClaims company_id (stable_id_from_url r.url) period
            (List.map (claimOfOut company_name period (serpDoc now serp_query r md)) payload)
            (upsert_source g now (serpDoc now serp_query r md)).1).companies =
            g.companies := by
          rw [applyClaims_companies]
          exact E1comp
        have hsrc3 : (alGet (stable_id_from_url r.url)
            (applyClaims company_id (stable_id_from_url r.url) period
              (List.map (claimOfOut company_name period (serpDoc now serp_query r md)) payload)
              (upsert_source g now (serpDoc now serp_query r md)).1).sources).isSome := by
          rw [E2src, E1srcs]
          exact alGet_alMerge_isSome _ _ _ _
        have E3e : (link_source_mentions_company
            (applyClaims company_id (stable_id_from_url r.url) period
              (List.map (claimOfOut company_name period (serpDoc now serp_query r md)) payload)
              (upsert_source g now (serpDoc now serp_query r md)).1)
            (stable_id_from_url r.url) company_id).edges = g.edges := by
          rw [link_mentions_edges]
          cases hp : (alGet company_id g.companies).isSome with
          | false =>
            rw [E2comp, hp]
            simp only [Bool.false_eq_true, and_false, if_false]
            rw [E2e, E1e]
          | true =>
            rw [E2comp, hp]
            simp only [and_true, if_pos hsrc3]
            rw [addE_of_mem, E2e, E1e]
            rw [E2e, E1e]
            refine h3 _ (List.mem_append.mpr (Or.inl ?_))
            rw [if_pos hp]
            exact List.mem_append.mpr (Or.inr (by simp))
        refine ?_
        have hcompeq : (link_source_mentions_company
            (applyClaims company_id (stable_id_from_url r.url) period
              (List.map (claimOfOut company_name period (serpDoc now serp_query r md)) payload)
              (upsert_source g now (serpDoc now serp_query r md)).1)
            (stable_id_from_url r.url) company_id).companies = g.companies := by
          rw [link_mentions_companies]
          exact E2comp
        have hsrckeq : srcKeys (link_source_mentions_company
            (applyClaims company_id (stable_id_from_url r.url) period
              (List.map (claimOfOut company_name period (serpDoc now serp_query r md)) payload)
              (upsert_source g now (serpDoc now serp_query r md)).1)
            (stable_id_from_url r.url) company_id) = srcKeys g := by
          unfold srcKeys
          rw [link_mentions_sources, E2src]
          exact E1src
        have hclkeq : claimKeys (link_source_mentions_company
            (applyClaims company_id (stable_id_from_url r.url) period
              (List.map (claimOfOut company_name period (serpDoc now serp_query r md)) payload)
              (upsert_source g now (serpDoc now serp_query r md)).1)
            (stable_id_from_url r.url) company_id) = claimKeys g := by
          unfold claimKeys
          rw [link_mentions_claims]
          rw [show (applyClaims company_id (stable_id_from_url r.url) period
            (List.map (claimOfOut company_name period (serpDoc now serp_query r md)) payload)
            (upsert_source g now (serpDoc now serp_query r md)).1).claims.map Prod.fst =
              claimKeys g from E2cl.trans E1cl]
          rfl
        have hih := ih (link_source_mentions_company
            (applyClaims company_id (stable_id_from_url r.url) period
              (List.map (claimOfOut company_name period (serpDoc now serp_query r md)) payload)
              (upsert_source g now (serpDoc now serp_query r md)).1)
            (stable_id_from_url r.url) company_id)
          (d + 1) (u + 1) errs (ExtCall.extractDoc r.url :: ExtCall.fetchUrl r.url :: tr)
          (by
            intro x hx
            rw [hcompeq] at hx
            rw [hsrckeq]
            exact h1 x (List.mem_cons_of_mem _ hx))
          (by
            intro x hx
            rw [hcompeq] at hx
            rw [hclkeq]
            exact h2 x (List.mem_append.mpr (Or.inr hx)))
          (by
            intro e he
            rw [hcompeq] at he
            rw [E3e]
            exact h3 e (List.mem_append.mpr (Or.inr he)))
        exact ⟨hih.1.trans hsrckeq, hih.2.1.trans hclkeq, hih.2.2.trans E3e⟩

/-- C3: every entity and relationship write is an identity-keyed merge:
applying the same merge twice leaves the store in the same observable state as
applying it once (`GraphStore.obs` erases only the refreshed
`last_updated_at`; the pipeline claim merge and the signal merge are even
literally idempotent, the latter for a given `computed_at` argument), and
re-running the identical refresh pipeline against the same (company, period,
URL set) — the same environment — creates no duplicate nodes and no duplicate
edges: the second run leaves the node-key lists and the edge list exactly as
the first run left them. -/
theorem merge_idempotence_no_duplicates :
    (∀ (g : GraphStore) (t1 t2 name : String) (ticker : Option String),
      ((upsert_company (upsert_company g t1 name ticker).1 t2 name ticker).1).obs =
        ((upsert_company g t1 name ticker).1).obs) ∧
    (∀ (g : GraphStore) (t1 t2 cid per et : String) (ed : Option String),
      ((upsert_event (upsert_event g t1 cid per et ed).1 t2 cid per et ed).1).obs =
        ((upsert_event g t1 cid per et ed).1).obs) ∧
    (∀ (g : GraphStore) (t1 t2 : String) (doc : SourceDoc),
      ((upsert_source (upsert_source g t1 doc).1 t2 doc).1).obs =
        ((upsert_source g t1 doc).1).obs) ∧
    (∀ (g : GraphStore) (t1 t2 cid eid sid tx ct : String) (cf : Rat),
      ((upsert_claim (upsert_claim g t1 cid eid sid tx ct cf).1
          t2 cid eid sid tx ct cf).1).obs =
        ((upsert_claim g t1 cid eid sid tx ct cf).1).obs) ∧
    (∀ (g : GraphStore) (cid sid per : String) (c : Claim),
      upsert_claim_and_links (upsert_claim_and_links g cid sid per c) cid sid per c =
        upsert_claim_and_links g cid sid per c) ∧
    (∀ (g : GraphStore) (t1 t2 cid eid st : String) (sc : Rat) (vol : Int) (w ca : String),
      (upsert_signal (upsert_signal g t1 cid eid st sc vol w (some ca)).1
          t2 cid eid st sc vol w (some ca)).1 =
        (upsert_signal g t1 cid eid st sc vol w (some ca)).1) ∧
    (∀ (g : GraphStore) (e : Edge), mergeEdge (mergeEdge g e) e = mergeEdge g e) ∧
    (∀ (env : RefreshEnv) (t1 t2 : String) (g : GraphStore)
      (company_id company_name period : String),
      srcKeys (refresh_company_period env t2
          (refresh_company_period env t1 g company_id company_name period).2.1
          company_id company_name period).2.1 =
        srcKeys (refresh_company_period env t1 g company_id company_name period).2.1 ∧
      claimKeys (refresh_company_period env t2
          (refresh_company_period env t1 g company_id company_name period).2.1
          company_id company_name period).2.1 =
        claimKeys (refresh_company_period env t1 g company_id company_name period).2.1 ∧
      (refresh_company_period env t2
          (refresh_company_period env t1 g company_id company_name period).2.1
          company_id company_name period).2.1.edges =
        (refresh_company_period env t1 g company_id company_name period).2.1.edges ∧
      (refresh_company_period env t2
          (refresh_company_period env t1 g company_id company_name period).2.1
          company_id company_name period).2.1.companies =
        (refresh_company_period env t1 g company_id company_name period).2.1.companies ∧
      (refresh_company_period env t2
          (refresh_company_period env t1 g company_id company_name period).2.1
          company_id company_name period).2.1.events =
        (refresh_company_period env t1 g company_id company_name period).2.1.events ∧
      (refresh_company_period env t2
          (refresh_company_period env t1 g company_id company_name period).2.1
          company_id company_name period).2.1.signals =
        (refresh_company_period env t1 g company_id company_name period).2.1.signals) := by
  refine ⟨merge_idem_company, merge_idem_event, merge_idem_source, merge_idem_claim,
    merge_idem_claim_and_links, merge_idem_signal, merge_idem_edge, ?_⟩
  intro env t1 t2 g company_id company_name period
  unfold refresh_company_period
  cases hs : env.serp with
  | error e => exact ⟨rfl, rfl, rfl, rfl, rfl, rfl⟩
  | ok payload =>
    have hpresent := refreshGo_writes_present env t1 company_id company_name period
      (earnings_query company_name period) (google_serp_urls payload 1) g 0 0 [] []
    have hcompeq := refreshGo_companies env t1 company_id company_name period
      (earnings_query company_name period) (google_serp_urls payload 1) g 0 0 [] []
    have hrep := refreshGo_replay env t2 company_id company_name period
      (earnings_query company_name period) (google_serp_urls payload 1)
      (refreshGo env t1 company_id company_name period
        (earnings_query company_name period) (google_serp_urls payload 1) g 0 0 [] []).2.1
      0 0 [] []
      (by
        rw [hcompeq]
        exact hpresent.1)
      (by
        rw [hcompeq]
        exact hpresent.2.1)
      (by
        rw [hcompeq]
        exact hpresent.2.2)
    refine ⟨hrep.1, hrep.2.1, hrep.2.2, ?_, ?_, ?_⟩
    · rw [refreshGo_companies]
    · rw [refreshGo_events]
    · rw [refreshGo_signals]

end PulseGraph
